import Mathlib

/-!
# Verification of the `add_modern_design.py` patcher

The program reads a `project.pbxproj` file into one string, generates two
random identifiers (`uuid4().hex[:24].upper()`), builds four text fragments,
inserts each one immediately after the first occurrence of its anchor
substring (skipping an insertion when its anchor is absent), writes the
result back, and prints three lines.

Documents are modelled as `List Char`.  `re.search` on a literal pattern is
modelled by `findSub`, which returns the index of the first occurrence.
-/

set_option maxHeartbeats 2000000
set_option maxRecDepth 8192

namespace HKA

/-- Uppercase hexadecimal digit test (characters 0-9, A-F). -/
def isHexUpper (c : Char) : Bool :=
  (('0' ≤ c) && (c ≤ '9')) || (('A' ≤ c) && (c ≤ 'F'))

/-- A well-formed generated identifier: exactly 24 uppercase hex characters. -/
def hexIdB (l : List Char) : Bool :=
  (l.length == 24) && l.all isHexUpper

/-- Boolean list-prefix test. -/
def prefB : List Char → List Char → Bool
  | [], _ => true
  | _ :: _, [] => false
  | a :: as, b :: bs => (a == b) && prefB as bs

/-- `p` is a prefix of `s`. -/
def Pref (p s : List Char) : Prop := ∃ t, p ++ t = s

/-- `p` is a suffix of `s`. -/
def Suff (p s : List Char) : Prop := ∃ t, t ++ p = s

/-- `p` occurs somewhere inside `s`. -/
def IsSubstr (p s : List Char) : Prop := ∃ a b, s = a ++ (p ++ b)

/-- Index of the first occurrence of `pat` in a document: the model of
Python's `re.search` applied to a literal (escaped) pattern. -/
def findSub (pat : List Char) : List Char → Option Nat
  | [] => if prefB pat [] then some 0 else none
  | c :: t => if prefB pat (c :: t) then some 0 else (findSub pat t).map (· + 1)

/-- Whether `pat` occurs in `s` (computable form). -/
def containsSubB (pat s : List Char) : Bool := (findSub pat s).isSome

/-- Number of start positions at which `pat` occurs in a document. -/
def countSub (pat : List Char) : List Char → Nat
  | [] => if prefB pat [] then 1 else 0
  | c :: t => (if prefB pat (c :: t) then 1 else 0) + countSub pat t

/-- `content[:end] + frag + content[end:]` where `end` is the end of the
first match of `pat`; `content` unchanged when there is no match.  This is
the shape of every insertion in the source. -/
def insertAfterFirst (pat frag s : List Char) : List Char :=
  match findSub pat s with
  | some i => s.take (i + pat.length) ++ (frag ++ s.drop (i + pat.length))
  | none => s

/-! ## The concrete strings of the program -/

/-- Anchor of the first insertion: `/* Begin PBXFileReference section */`. -/
def refMarker : List Char := "/* Begin PBXFileReference section */".toList

/-- Anchor of the second insertion: `/* Begin PBXBuildFile section */`. -/
def buildMarker : List Char := "/* Begin PBXBuildFile section */".toList

/-- Anchor of the third insertion: the existing group list entry. -/
def groupAnchor : List Char := "BB0002 /* ContentView.swift */,".toList

/-- Anchor of the fourth insertion: the existing build-phase list entry. -/
def sourcesAnchor : List Char := "AA0002 /* ContentView.swift in Sources */,".toList

/-- Constant part of the file-reference declaration after the identifier. -/
def refTail : List Char :=
  " /* ModernDesign.swift */ = \x7bisa = PBXFileReference; lastKnownFileType = sourcecode.swift; path = ModernDesign.swift; sourceTree = \"<group>\"; \x7d;".toList

/-- Constant part of the build-file declaration between the two identifiers. -/
def buildTail1 : List Char :=
  " /* ModernDesign.swift in Sources */ = \x7bisa = PBXBuildFile; fileRef = ".toList

/-- Constant part of the build-file declaration after the second identifier. -/
def buildTail2 : List Char := " /* ModernDesign.swift */; \x7d;".toList

/-- Constant part of the inserted group list item after the identifier. -/
def groupTail : List Char := " /* ModernDesign.swift */,".toList

/-- Constant part of the inserted build-phase list item after the identifier. -/
def sourcesTail : List Char := " /* ModernDesign.swift in Sources */,".toList

/-- `file_ref`: the full file-reference declaration line (tab-indented). -/
def fileRefLine (fId : List Char) : List Char :=
  '\t' :: '\t' :: (fId ++ refTail)

/-- `build_file`: the full build-file declaration line (tab-indented). -/
def buildFileLine (bId fId : List Char) : List Char :=
  '\t' :: '\t' :: (bId ++ (buildTail1 ++ (fId ++ buildTail2)))

/-- Fragment spliced after the file-reference section marker. -/
def refFrag (fId : List Char) : List Char := '\n' :: fileRefLine fId

/-- Fragment spliced after the build-file section marker. -/
def buildFrag (bId fId : List Char) : List Char := '\n' :: buildFileLine bId fId

/-- Fragment spliced after the existing group list entry. -/
def groupFrag (fId : List Char) : List Char :=
  '\n' :: '\t' :: '\t' :: '\t' :: '\t' :: (fId ++ groupTail)

/-- Fragment spliced after the existing build-phase list entry. -/
def sourcesFrag (bId : List Char) : List Char :=
  '\n' :: '\t' :: '\t' :: '\t' :: '\t' :: (bId ++ sourcesTail)

/-! ## The four insertion steps and the whole patch -/

/-- Insertion of the file-reference declaration (source lines 25-28). -/
def step1 (fId c : List Char) : List Char :=
  insertAfterFirst refMarker (refFrag fId) c

/-- Insertion of the build-file declaration (source lines 31-34). -/
def step2 (bId fId c : List Char) : List Char :=
  insertAfterFirst buildMarker (buildFrag bId fId) c

/-- Insertion of the group list item (source lines 38-42). -/
def step3 (fId c : List Char) : List Char :=
  insertAfterFirst groupAnchor (groupFrag fId) c

/-- Insertion of the build-phase list item (source lines 45-49). -/
def step4 (bId c : List Char) : List Char :=
  insertAfterFirst sourcesAnchor (sourcesFrag bId) c

/-- One run of the patcher on the in-memory document. -/
def patch (fId bId c : List Char) : List Char :=
  step4 bId (step3 fId (step2 bId fId (step1 fId c)))

/-! ## Console output -/

/-- The success line printed by the program (source line 55). -/
def successLine : List Char :=
  "Successfully added ModernDesign.swift to Xcode project".toList

/-- The file-reference-identifier line printed by the program (source line 56). -/
def refIdLine (fId : List Char) : List Char :=
  "File Reference ID: ".toList ++ fId

/-- The build-file-identifier line printed by the program (source line 57). -/
def buildIdLine (bId : List Char) : List Char :=
  "Build File ID: ".toList ++ bId

/-- Everything the program produces from the in-memory document and the two
identifiers: the patched document written back, and the printed lines in
print order. -/
def progOutput (fId bId c : List Char) : List Char × List (List Char) :=
  (patch fId bId c, [successLine, refIdLine fId, buildIdLine bId])

/-! ## Identifier generation: `uuid.uuid4().hex[:24].upper()` -/

/-- Lowercase hex digit of one random nibble, as in `uuid4().hex`. -/
def nibbleChar (n : Fin 16) : Char :=
  if n.val < 10 then Char.ofNat (48 + n.val) else Char.ofNat (87 + n.val)

/-- The 32-character lowercase hex string of a uuid draw. -/
def uuidHex (u : List (Fin 16)) : List Char := u.map nibbleChar

/-- The generated identifier: first 24 hex characters, uppercased. -/
def genId (u : List (Fin 16)) : List Char :=
  ((uuidHex u).take 24).map Char.toUpper

/-! ## Basic lemmas about prefixes, suffixes and substrings -/

theorem pref_nil (s : List Char) : Pref [] s := ⟨s, rfl⟩

theorem pref_refl (s : List Char) : Pref s s := ⟨[], by simp⟩

theorem prefB_iff (p : List Char) : ∀ s, prefB p s = true ↔ Pref p s := by
  induction p with
  | nil => intro s; simp [prefB, pref_nil]
  | cons a as ih =>
    intro s
    cases s with
    | nil =>
      constructor
      · intro h; exact absurd h (by simp [prefB])
      · rintro ⟨t, ht⟩; simp at ht
    | cons b bs =>
      simp only [prefB, Bool.and_eq_true, beq_iff_eq]
      constructor
      · rintro ⟨rfl, h⟩
        obtain ⟨t, rfl⟩ := (ih bs).1 h
        exact ⟨t, rfl⟩
      · rintro ⟨t, ht⟩
        injection ht with h1 h2
        exact ⟨h1, (ih bs).2 ⟨t, h2⟩⟩

theorem pref_length {p s : List Char} (h : Pref p s) : p.length ≤ s.length := by
  obtain ⟨t, rfl⟩ := h
  simp

theorem pref_take_eq {p s : List Char} (h : Pref p s) : s.take p.length = p := by
  obtain ⟨t, rfl⟩ := h
  exact List.take_left p t

theorem pref_of_take {p s : List Char} (h : s.take p.length = p) : Pref p s := by
  have h2 := s.take_append_drop p.length
  rw [h] at h2
  exact ⟨s.drop p.length, h2⟩

theorem pref_getElem {p s : List Char} (h : Pref p s) (i : Nat) (hi : i < p.length)
    (hs : i < s.length) : p[i] = s[i] := by
  obtain ⟨t, rfl⟩ := h
  exact (List.getElem_append_left hi).symm

theorem pref_head {a : Char} {p s : List Char} (h : Pref (a :: p) s) :
    ∃ s', s = a :: s' ∧ Pref p s' := by
  obtain ⟨t, ht⟩ := h
  exact ⟨p ++ t, ht.symm, ⟨t, rfl⟩⟩

theorem pref_trans {p q s : List Char} (h1 : Pref p q) (h2 : Pref q s) : Pref p s := by
  obtain ⟨t, rfl⟩ := h1
  obtain ⟨u, rfl⟩ := h2
  exact ⟨t ++ u, by simp⟩

theorem pref_append_right {p s t : List Char} (h : Pref p s) : Pref p (s ++ t) := by
  obtain ⟨u, rfl⟩ := h
  exact ⟨u ++ t, by simp⟩

theorem pref_of_le_of_pref_append {p s t : List Char} (h : Pref p (s ++ t))
    (hl : p.length ≤ s.length) : Pref p s := by
  have h1 := pref_take_eq h
  rw [List.take_append_eq_append_take, Nat.sub_eq_zero_of_le hl, List.take_zero,
    List.append_nil] at h1
  exact pref_of_take h1

theorem suff_refl (s : List Char) : Suff s s := ⟨[], rfl⟩

theorem suff_length {p s : List Char} (h : Suff p s) : p.length ≤ s.length := by
  obtain ⟨t, rfl⟩ := h
  simp

theorem suff_trans {p q s : List Char} (h1 : Suff p q) (h2 : Suff q s) : Suff p s := by
  obtain ⟨t, rfl⟩ := h1
  obtain ⟨u, rfl⟩ := h2
  exact ⟨u ++ t, by simp⟩

theorem suff_append_left {p s : List Char} (h : Suff p s) (t : List Char) :
    Suff p (t ++ s) := by
  obtain ⟨u, rfl⟩ := h
  exact ⟨t ++ u, by simp⟩

theorem suff_getElem {w s : List Char} (h : Suff w s) (i : Nat) (hi : i < w.length)
    (hs : s.length - w.length + i < s.length) :
    w[i] = s[s.length - w.length + i] := by
  obtain ⟨t, rfl⟩ := h
  have hlen : (t ++ w).length - w.length = t.length := by simp
  have h2 : (t ++ w).length - w.length + i = t.length + i := by rw [hlen]
  have h3 : t.length ≤ t.length + i := Nat.le_add_right _ _
  have hb : t.length + i < (t ++ w).length := by simp [hi]
  calc w[i] = (t ++ w)[t.length + i] := by
        rw [List.getElem_append_right h3]
        congr 1
        omega
    _ = (t ++ w)[(t ++ w).length - w.length + i] := by
        congr 1
        omega

theorem suff_split_short {w a b : List Char} (h : Suff w (a ++ b))
    (hl : w.length ≤ b.length) : Suff w b := by
  obtain ⟨t, ht⟩ := h
  rcases List.append_eq_append_iff.mp ht with ⟨m, hm1, hm2⟩ | ⟨m, hm1, hm2⟩
  · have : m.length + b.length = w.length := by
      have := congrArg List.length hm2
      simpa using this.symm
    have hm : m = [] := List.eq_nil_of_length_eq_zero (by omega)
    subst hm
    simpa using hm2 ▸ suff_refl b
  · exact ⟨m, hm2.symm⟩

theorem suff_split_long {w a b : List Char} (h : Suff w (a ++ b))
    (hl : b.length < w.length) : ∃ w', w = w' ++ b ∧ Suff w' a ∧ w' ≠ [] := by
  obtain ⟨t, ht⟩ := h
  rcases List.append_eq_append_iff.mp ht with ⟨m, hm1, hm2⟩ | ⟨m, hm1, hm2⟩
  · refine ⟨m, hm2, ⟨t, hm1.symm⟩, ?_⟩
    intro hnil
    subst hnil
    rw [List.nil_append] at hm2
    subst hm2
    omega
  · exfalso
    have := congrArg List.length hm2
    simp at this
    omega

theorem substr_iff_drop {p s : List Char} : IsSubstr p s ↔ ∃ i, Pref p (s.drop i) := by
  constructor
  · rintro ⟨a, b, rfl⟩
    refine ⟨a.length, ⟨b, ?_⟩⟩
    rw [List.drop_left]
  · rintro ⟨i, t, ht⟩
    exact ⟨s.take i, t, by rw [ht, s.take_append_drop i]⟩

theorem substr_of_pref {p s : List Char} (h : Pref p s) : IsSubstr p s := by
  obtain ⟨t, rfl⟩ := h
  exact ⟨[], t, rfl⟩

theorem substr_of_suff {p s : List Char} (h : Suff p s) : IsSubstr p s := by
  obtain ⟨t, rfl⟩ := h
  exact ⟨t, [], by simp⟩

theorem substr_length {p s : List Char} (h : IsSubstr p s) : p.length ≤ s.length := by
  obtain ⟨a, b, rfl⟩ := h
  simp
  omega

theorem substr_trans {p q s : List Char} (h1 : IsSubstr p q) (h2 : IsSubstr q s) :
    IsSubstr p s := by
  obtain ⟨a, b, rfl⟩ := h1
  obtain ⟨x, y, rfl⟩ := h2
  exact ⟨x ++ a, b ++ y, by simp⟩

theorem substr_append_right {p s : List Char} (h : IsSubstr p s) (t : List Char) :
    IsSubstr p (s ++ t) := by
  obtain ⟨a, b, rfl⟩ := h
  exact ⟨a, b ++ t, by simp⟩

theorem substr_append_left {p s : List Char} (h : IsSubstr p s) (t : List Char) :
    IsSubstr p (t ++ s) := by
  obtain ⟨a, b, rfl⟩ := h
  exact ⟨t ++ a, b, by simp⟩

theorem mem_of_pref {p s : List Char} (h : Pref p s) {c : Char} (hc : c ∈ p) : c ∈ s := by
  obtain ⟨t, rfl⟩ := h
  exact List.mem_append_left t hc

theorem mem_of_suff {p s : List Char} (h : Suff p s) {c : Char} (hc : c ∈ p) : c ∈ s := by
  obtain ⟨t, rfl⟩ := h
  exact List.mem_append_right t hc

theorem mem_of_substr {p s : List Char} (h : IsSubstr p s) {c : Char} (hc : c ∈ p) :
    c ∈ s := by
  obtain ⟨a, b, rfl⟩ := h
  exact List.mem_append_right a (List.mem_append_left b hc)

/-! ## Lemmas about `findSub` and `insertAfterFirst` -/

theorem findSub_le_length {pat s : List Char} {i : Nat} (h : findSub pat s = some i) :
    i ≤ s.length := by
  induction s generalizing i with
  | nil =>
    simp only [findSub] at h
    split at h
    · cases h; simp
    · cases h
  | cons c t ih =>
    simp only [findSub] at h
    split at h
    · cases h; simp
    · rcases hft : findSub pat t with _ | j
      · rw [hft] at h; cases h
      · rw [hft] at h
        simp only [Option.map_some'] at h
        cases h
        have := ih hft
        simp only [List.length_cons]
        omega

theorem findSub_some_pref {pat s : List Char} {i : Nat} (h : findSub pat s = some i) :
    Pref pat (s.drop i) := by
  induction s generalizing i with
  | nil =>
    simp only [findSub] at h
    split at h
    · cases h
      rename_i hp
      simpa using (prefB_iff pat []).1 hp
    · cases h
  | cons c t ih =>
    simp only [findSub] at h
    split at h
    · cases h
      rename_i hp
      simpa using (prefB_iff pat (c :: t)).1 hp
    · rcases hft : findSub pat t with _ | j
      · rw [hft] at h; cases h
      · rw [hft] at h
        simp only [Option.map_some'] at h
        cases h
        simpa using ih hft

theorem findSub_some_min {pat s : List Char} {i : Nat} (h : findSub pat s = some i) :
    ∀ j, j < i → ¬ Pref pat (s.drop j) := by
  induction s generalizing i with
  | nil =>
    simp only [findSub] at h
    split at h
    · cases h; omega
    · cases h
  | cons c t ih =>
    simp only [findSub] at h
    split at h
    · cases h; omega
    · rcases hft : findSub pat t with _ | k
      · rw [hft] at h; cases h
      · rw [hft] at h
        simp only [Option.map_some'] at h
        cases h
        intro j hj
        cases j with
        | zero =>
          intro hp
          rename_i hnp
          rw [(prefB_iff pat (c :: t)).2 (by simpa using hp)] at hnp
          simp at hnp
        | succ j' =>
          simpa using ih hft j' (by omega)

theorem findSub_none {pat s : List Char} (h : findSub pat s = none) :
    ∀ j, ¬ Pref pat (s.drop j) := by
  induction s with
  | nil =>
    simp only [findSub] at h
    split at h
    · cases h
    · intro j hp
      rename_i hnp
      rw [(prefB_iff pat _).2 (by simpa using hp)] at hnp
      simp at hnp
  | cons c t ih =>
    simp only [findSub] at h
    split at h
    · cases h
    · rcases hft : findSub pat t with _ | k
      · intro j
        cases j with
        | zero =>
          intro hp
          rename_i hnp
          rw [(prefB_iff pat (c :: t)).2 (by simpa using hp)] at hnp
          simp at hnp
        | succ j' =>
          simpa using ih hft j'
      · rw [hft] at h
        simp at h

theorem findSub_isSome_iff {pat s : List Char} :
    (findSub pat s).isSome = true ↔ IsSubstr pat s := by
  constructor
  · intro h
    rcases hf : findSub pat s with _ | i
    · rw [hf] at h; cases h
    · exact substr_iff_drop.2 ⟨i, findSub_some_pref hf⟩
  · intro h
    obtain ⟨i, hi⟩ := substr_iff_drop.1 h
    rcases hf : findSub pat s with _ | j
    · exact absurd hi (findSub_none hf i)
    · simp

theorem substr_iff_containsB {pat s : List Char} :
    IsSubstr pat s ↔ containsSubB pat s = true := by
  rw [containsSubB]
  exact findSub_isSome_iff.symm

theorem findSub_some_add_le {pat s : List Char} {i : Nat} (hpat : pat ≠ [])
    (h : findSub pat s = some i) : i + pat.length ≤ s.length := by
  have h1 := findSub_some_pref h
  have h2 := pref_length h1
  rw [List.length_drop] at h2
  have h3 := findSub_le_length h
  rcases Nat.lt_or_ge i s.length with h4 | h4
  · omega
  · exfalso
    have : s.drop i = [] := List.drop_eq_nil_of_le h4
    rw [this] at h1
    obtain ⟨t, ht⟩ := h1
    cases pat with
    | nil => exact hpat rfl
    | cons a as => simp at ht

theorem take_add_of_pref {pat s : List Char} {i : Nat} (h : Pref pat (s.drop i)) :
    s.take (i + pat.length) = s.take i ++ pat := by
  rw [List.take_add, pref_take_eq h]

theorem insertAfterFirst_of_some {pat frag s : List Char} {i : Nat}
    (h : findSub pat s = some i) :
    insertAfterFirst pat frag s =
      (s.take i ++ pat) ++ (frag ++ s.drop (i + pat.length)) := by
  unfold insertAfterFirst
  rw [h]
  show s.take (i + pat.length) ++ (frag ++ s.drop (i + pat.length)) = _
  rw [take_add_of_pref (findSub_some_pref h)]

theorem insertAfterFirst_of_none {pat frag s : List Char}
    (h : findSub pat s = none) : insertAfterFirst pat frag s = s := by
  unfold insertAfterFirst
  rw [h]

theorem insertAfterFirst_length_of_some {pat frag s : List Char} {i : Nat}
    (hpat : pat ≠ []) (h : findSub pat s = some i) :
    (insertAfterFirst pat frag s).length = s.length + frag.length := by
  rw [insertAfterFirst_of_some h]
  have h1 := findSub_some_add_le hpat h
  have h2 := findSub_le_length h
  simp [List.length_take, List.length_drop]
  omega

/-! ## Occurrences across concatenations -/

theorem suff_cons {p s : List Char} (h : Suff p s) (c : Char) : Suff p (c :: s) := by
  obtain ⟨t, rfl⟩ := h
  exact ⟨c :: t, rfl⟩

theorem pref_cancel_left {u v y : List Char} (h : Pref (u ++ v) (u ++ y)) : Pref v y := by
  obtain ⟨t, ht⟩ := h
  rw [List.append_assoc] at ht
  exact ⟨t, List.append_cancel_left ht⟩

theorem pref_take (A : List Char) (n : Nat) : Pref (A.take n) A :=
  ⟨A.drop n, A.take_append_drop n⟩

theorem pref_split_long {A x y : List Char} (h : Pref A (x ++ y))
    (hl : x.length < A.length) : Pref x A ∧ Pref (A.drop x.length) y := by
  have hx : Pref x A := by
    apply pref_of_take
    have h1 := pref_take_eq h
    have h2 : A.take x.length = ((x ++ y).take A.length).take x.length := by rw [h1]
    rw [List.take_take, Nat.min_eq_left (Nat.le_of_lt hl)] at h2
    rw [h2, List.take_append_eq_append_take, Nat.sub_eq_zero_of_le (Nat.le_refl _),
      List.take_zero, List.append_nil, List.take_length]
  refine ⟨hx, ?_⟩
  obtain ⟨r, hr⟩ := hx
  have hrA : A = x ++ r := hr.symm
  have hdrop : A.drop x.length = r := by rw [hrA, List.drop_left]
  rw [hdrop]
  apply pref_cancel_left (u := x)
  rw [← hrA]
  exact h

theorem substr_append_cases {A x y : List Char} (h : IsSubstr A (x ++ y)) :
    IsSubstr A x ∨ IsSubstr A y ∨
      ∃ u v, A = u ++ v ∧ u ≠ [] ∧ v ≠ [] ∧ Suff u x ∧ Pref v y := by
  obtain ⟨i, hi⟩ := substr_iff_drop.1 h
  rcases Nat.lt_or_ge i x.length with hix | hix
  · rw [List.drop_append_of_le_length (Nat.le_of_lt hix)] at hi
    rcases le_or_lt A.length (x.drop i).length with hlen | hlen
    · left
      exact substr_iff_drop.2 ⟨i, pref_of_le_of_pref_append hi hlen⟩
    · obtain ⟨hpx, hpy⟩ := pref_split_long hi hlen
      rcases Nat.eq_zero_or_pos (x.drop i).length with hz | hz
      · exfalso
        rw [List.length_drop] at hz
        omega
      · right; right
        refine ⟨x.drop i, A.drop (x.drop i).length, ?_, ?_, ?_, ?_, hpy⟩
        · obtain ⟨r, hr⟩ := hpx
          have : A.drop (x.drop i).length = r := by rw [← hr, List.drop_left]
          rw [this, hr]
        · intro hnil
          rw [hnil] at hz
          simp at hz
        · intro hnil
          have hlth := congrArg List.length hnil
          rw [List.length_drop] at hlth
          simp only [List.length_nil] at hlth
          omega
        · exact ⟨x.take i, x.take_append_drop i⟩
  · right; left
    apply substr_iff_drop.2
    refine ⟨i - x.length, ?_⟩
    have hdec : (x ++ y).drop i = y.drop (i - x.length) := by
      have h3 : y.drop (i - x.length) = ((x ++ y).drop x.length).drop (i - x.length) := by
        rw [List.drop_left]
      rw [h3, List.drop_drop]
      congr 1
      omega
    rw [hdec] at hi
    exact hi

/-- No occurrence of `A` straddles the boundary between `x` and `y`. -/
def NoCrossAt (A x y : List Char) : Prop :=
  ∀ u v, A = u ++ v → u ≠ [] → v ≠ [] → ¬ (Suff u x ∧ Pref v y)

theorem noCrossAt_of_newline {A x y' : List Char} (hnl : '\n' ∉ A) :
    NoCrossAt A x ('\n' :: y') := by
  rintro u v hA hu hv ⟨hsu, hpv⟩
  cases v with
  | nil => exact hv rfl
  | cons a v' =>
    obtain ⟨s', hs', hp'⟩ := pref_head hpv
    injection hs' with ha
    cases ha
    apply hnl
    rw [hA]
    exact List.mem_append_right u (List.mem_cons_self _ _)

theorem noCrossAt_of_take_suff {A f y : List Char}
    (hcross : ∀ l, 0 < l → l < A.length → ¬ Suff (A.take l) f) : NoCrossAt A f y := by
  rintro u v hA hu hv ⟨hsu, hpv⟩
  have hut : u = A.take u.length := by
    rw [hA, List.take_append_eq_append_take, Nat.sub_eq_zero_of_le (Nat.le_refl _),
      List.take_zero, List.append_nil, List.take_length]
  have h1 : 0 < u.length := List.length_pos.2 hu
  have h2 : u.length < A.length := by
    have := congrArg List.length hA
    simp at this
    have hv' : 0 < v.length := List.length_pos.2 hv
    omega
  exact hcross u.length h1 h2 (hut ▸ hsu)

/-! ## Counting occurrences -/

theorem countSub_nil {pat : List Char} (h : pat ≠ []) : countSub pat [] = 0 := by
  rw [countSub]
  cases pat with
  | nil => exact absurd rfl h
  | cons a as => rfl

theorem countSub_cons (pat : List Char) (c : Char) (t : List Char) :
    countSub pat (c :: t) = (if prefB pat (c :: t) then 1 else 0) + countSub pat t := rfl

theorem countSub_short {pat : List Char} : ∀ {s : List Char}, s.length < pat.length →
    countSub pat s = 0 := by
  intro s
  induction s with
  | nil =>
    intro h
    apply countSub_nil
    intro hp
    rw [hp] at h
    simp at h
  | cons c t ih =>
    intro h
    rw [countSub_cons]
    have h1 : prefB pat (c :: t) = false := by
      rw [← Bool.not_eq_true, prefB_iff]
      intro hp
      have := pref_length hp
      omega
    rw [h1]
    simp only [Bool.false_eq_true, if_false, Nat.zero_add]
    exact ih (by simp at h ⊢; omega)

theorem countSub_pos_of_substr {pat s : List Char} (hp : pat ≠ [])
    (h : IsSubstr pat s) : 0 < countSub pat s := by
  obtain ⟨i, hi⟩ := substr_iff_drop.1 h
  clear h
  induction s generalizing i with
  | nil =>
    exfalso
    rw [List.drop_nil] at hi
    obtain ⟨t, ht⟩ := hi
    cases pat with
    | nil => exact hp rfl
    | cons a as => simp at ht
  | cons c t ih =>
    rw [countSub_cons]
    cases i with
    | zero =>
      rw [List.drop_zero] at hi
      rw [(prefB_iff _ _).2 hi]
      simp
    | succ i' =>
      have := ih i' (by simpa using hi)
      omega

theorem prefB_congr {A s t : List Char} (h : Pref A s ↔ Pref A t) :
    prefB A s = prefB A t := by
  cases hb : prefB A t
  · rw [← Bool.not_eq_true] at hb ⊢
    rw [prefB_iff] at hb ⊢
    exact fun hp => hb (h.1 hp)
  · rw [prefB_iff] at hb ⊢
    exact h.2 hb

theorem countSub_append {A : List Char} (hA : A ≠ []) :
    ∀ {x y : List Char}, NoCrossAt A x y →
      countSub A (x ++ y) = countSub A x + countSub A y := by
  intro x
  induction x with
  | nil =>
    intro y h
    rw [List.nil_append, countSub_nil hA]
    omega
  | cons c t ih =>
    intro y h
    have hrec : NoCrossAt A t y := by
      rintro u v hAuv hu hv ⟨hsu, hpv⟩
      exact h u v hAuv hu hv ⟨suff_cons hsu c, hpv⟩
    rw [List.cons_append, countSub_cons, countSub_cons, ih hrec]
    have hhit : prefB A ((c :: t) ++ y) = prefB A (c :: t) := by
      rcases le_or_lt A.length (c :: t).length with hlen | hlen
      · apply prefB_congr
        constructor
        · intro hp
          exact pref_of_le_of_pref_append hp hlen
        · intro hp
          exact pref_append_right hp
      · apply prefB_congr
        constructor
        · intro hp
          exfalso
          obtain ⟨hpx, hpy⟩ := pref_split_long hp hlen
          refine h (c :: t) (A.drop (c :: t).length) ?_ (by simp) ?_
            ⟨suff_refl _, hpy⟩
          · obtain ⟨r, hr⟩ := hpx
            have hd : A.drop (c :: t).length = r := by rw [← hr, List.drop_left]
            rw [hd]
            exact hr.symm
          · intro hnil
            have hlth := congrArg List.length hnil
            rw [List.length_drop] at hlth
            simp only [List.length_nil] at hlth
            omega
        · intro hp
          exfalso
          have hpl := pref_length hp
          omega
    rw [← List.cons_append, hhit]
    omega

/-! ## Effect of one insertion on occurrences -/

theorem noCrossAt_anchor_cut {A pat s : List Char} {i : Nat}
    (hf : findSub pat s = some i)
    (hsplit : ∀ w, w ≠ [] → Suff w pat → Pref w A → w = A)
    (hsub : ¬ IsSubstr pat (A.drop 1)) :
    NoCrossAt A (s.take (i + pat.length)) (s.drop (i + pat.length)) := by
  rintro u v hA hu hv ⟨hsu, hpv⟩
  rw [take_add_of_pref (findSub_some_pref hf)] at hsu
  rcases le_or_lt u.length pat.length with hle | hlt
  · have hupat : Suff u pat := suff_split_short hsu hle
    have := hsplit u hu hupat ⟨v, hA.symm⟩
    rw [this] at hA
    have hvnil : v = [] := by
      have hlen2 := congrArg List.length hA
      rw [List.length_append] at hlen2
      exact List.eq_nil_of_length_eq_zero (by omega)
    exact hv hvnil
  · obtain ⟨u', hu', hsu', hu'nil⟩ := suff_split_long hsu hlt
    apply hsub
    rw [hA, hu', List.append_assoc]
    have h1 : 1 ≤ u'.length := by
      have := List.length_pos.2 hu'nil
      omega
    rw [List.drop_append_of_le_length h1]
    exact ⟨u'.drop 1, v, rfl⟩

theorem substr_take_of_le {A s : List Char} {j p : Nat} (hj : Pref A (s.drop j))
    (hle : j + A.length ≤ p) : IsSubstr A (s.take p) := by
  apply substr_iff_drop.2
  refine ⟨j, ?_⟩
  apply pref_of_take
  have h1 : (s.take p).drop j = (s.drop j).take (p - j) := by
    rw [List.drop_take]
  rw [h1, List.take_take, Nat.min_eq_left (by omega), pref_take_eq hj]

theorem substr_cut_cases {A s : List Char} {p : Nat} (h : IsSubstr A s)
    (hnc : NoCrossAt A (s.take p) (s.drop p)) :
    IsSubstr A (s.take p) ∨ IsSubstr A (s.drop p) := by
  have h2 : IsSubstr A (s.take p ++ s.drop p) := by
    rw [s.take_append_drop p]
    exact h
  rcases substr_append_cases h2 with hc | hc | ⟨u, v, hA, hu, hv, hsu, hpv⟩
  · exact Or.inl hc
  · exact Or.inr hc
  · exact absurd ⟨hsu, hpv⟩ (hnc u v hA hu hv)

theorem substr_insert_preserved {A pat frag s : List Char} (h : IsSubstr A s)
    (hsplit : ∀ w, w ≠ [] → Suff w pat → Pref w A → w = A)
    (hsub : ¬ IsSubstr pat (A.drop 1)) :
    IsSubstr A (insertAfterFirst pat frag s) := by
  rcases hf : findSub pat s with _ | i
  · rw [insertAfterFirst_of_none hf]
    exact h
  · rw [insertAfterFirst_of_some hf, ← take_add_of_pref (findSub_some_pref hf)]
    rcases substr_cut_cases h (noCrossAt_anchor_cut hf hsplit hsub) with hc | hc
    · exact substr_append_right hc _
    · exact substr_append_left (substr_append_left hc frag) _

theorem substr_insert_absent {A pat frag s : List Char}
    (hno : ¬ IsSubstr A s) (hnl : '\n' ∉ A) (hfh : ∃ f', frag = '\n' :: f')
    (hnf : ¬ IsSubstr A frag)
    (hcross : ∀ l, 0 < l → l < A.length → ¬ Suff (A.take l) frag) :
    ¬ IsSubstr A (insertAfterFirst pat frag s) := by
  rcases hf : findSub pat s with _ | i
  · rw [insertAfterFirst_of_none hf]
    exact hno
  · rw [insertAfterFirst_of_some hf, ← take_add_of_pref (findSub_some_pref hf)]
    intro hcon
    obtain ⟨f', rfl⟩ := hfh
    rcases substr_append_cases hcon with hc | hc | ⟨u, v, hA, hu, hv, hsu, hpv⟩
    · exact hno (substr_trans hc (substr_of_pref (pref_take s _)))
    · rcases substr_append_cases hc with hc2 | hc2 | ⟨u, v, hA, hu, hv, hsu, hpv⟩
      · exact hnf hc2
      · exact hno (substr_trans hc2 (substr_of_suff ⟨s.take _, s.take_append_drop _⟩))
      · exact noCrossAt_of_take_suff hcross u v hA hu hv ⟨hsu, hpv⟩
    · exact noCrossAt_of_newline hnl u v hA hu hv ⟨hsu, hpv⟩

theorem countSub_insert {A pat frag s : List Char} {i : Nat} (hA : A ≠ [])
    (hf : findSub pat s = some i)
    (hsplit : ∀ w, w ≠ [] → Suff w pat → Pref w A → w = A)
    (hsub : ¬ IsSubstr pat (A.drop 1))
    (hnl : '\n' ∉ A) (hfh : ∃ f', frag = '\n' :: f')
    (hcross : ∀ l, 0 < l → l < A.length → ¬ Suff (A.take l) frag) :
    countSub A (insertAfterFirst pat frag s) = countSub A s + countSub A frag := by
  rw [insertAfterFirst_of_some hf, ← take_add_of_pref (findSub_some_pref hf)]
  obtain ⟨f', rfl⟩ := hfh
  rw [countSub_append hA (y := ('\n' :: f') ++ s.drop (i + pat.length))
    (noCrossAt_of_newline hnl),
    countSub_append hA (noCrossAt_of_take_suff hcross)]
  conv_rhs => rw [← s.take_append_drop (i + pat.length)]
  rw [countSub_append hA (noCrossAt_anchor_cut hf hsplit hsub)]
  omega

/-! ## A calculus for counting occurrences in block-structured fragments -/

theorem range_all_elim {n : Nat} {f : Nat → Bool} (h : (List.range n).all f = true)
    {j : Nat} (hj : j < n) : f j = true :=
  List.all_eq_true.mp h j (List.mem_range.mpr hj)

theorem suff_drop_eq {w s : List Char} (h : Suff w s) :
    s.drop (s.length - w.length) = w := by
  obtain ⟨t, rfl⟩ := h
  have h1 : (t ++ w).length - w.length = t.length := by simp
  rw [h1, List.drop_left]

theorem countSub_skip_of_no_pref {p : List Char} :
    ∀ (cb t : List Char), (∀ j, j < cb.length → ¬ Pref p (cb.drop j ++ t)) →
      countSub p (cb ++ t) = countSub p t := by
  intro cb
  induction cb with
  | nil =>
    intro t _
    rw [List.nil_append]
  | cons c cb' ih =>
    intro t h
    rw [List.cons_append, countSub_cons]
    have h0 : ¬ Pref p ((c :: cb') ++ t) := by
      have := h 0 (by simp)
      simpa using this
    have hB : prefB p (c :: (cb' ++ t)) = false := by
      rw [← Bool.not_eq_true, prefB_iff]
      rw [List.cons_append] at h0
      exact h0
    rw [hB]
    simp only [Bool.false_eq_true, if_false, Nat.zero_add]
    apply ih
    intro j hj
    have := h (j + 1) (by simp; omega)
    simpa using this

/-- Decidable fact: no start position inside the concrete block `cb` can begin
an occurrence of `p`, whatever follows the block. -/
def blockOkB (p cb : List Char) : Bool :=
  (List.range cb.length).all fun j =>
    if p.length ≤ cb.length - j then !(prefB p (cb.drop j)) else !(prefB (cb.drop j) p)

theorem blockOk_no_pref {p cb : List Char} (hb : blockOkB p cb = true)
    {j : Nat} (hj : j < cb.length) (t : List Char) : ¬ Pref p (cb.drop j ++ t) := by
  have h0 := range_all_elim hb hj
  intro hp
  split at h0
  · rename_i hle
    have hple : p.length ≤ (cb.drop j).length := by
      rw [List.length_drop]
      exact hle
    have := pref_of_le_of_pref_append hp hple
    rw [(prefB_iff _ _).2 this] at h0
    simp at h0
  · rename_i hgt
    have hlen : (cb.drop j).length < p.length := by
      rw [List.length_drop]
      omega
    have := (pref_split_long hp hlen).1
    rw [(prefB_iff _ _).2 this] at h0
    simp at h0

theorem countSub_block_skip {p cb : List Char} (hb : blockOkB p cb = true)
    (t : List Char) : countSub p (cb ++ t) = countSub p t :=
  countSub_skip_of_no_pref cb t (fun _ hj => blockOk_no_pref hb hj t)

theorem no_pref_of_hex_head {p d t : List Char}
    (hd : ∀ c ∈ d, isHexUpper c = true)
    (hph : ∃ c0 t0, p = c0 :: t0 ∧ isHexUpper c0 = false)
    {j : Nat} (hj : j < d.length) : ¬ Pref p (d.drop j ++ t) := by
  intro hp
  obtain ⟨c0, t0, rfl, hc0⟩ := hph
  have hne : d.drop j ≠ [] := by
    intro h
    have := congrArg List.length h
    simp at this
    omega
  cases hdj : d.drop j with
  | nil => exact hne hdj
  | cons a rest =>
    rw [hdj, List.cons_append] at hp
    obtain ⟨s', hs', _⟩ := pref_head hp
    injection hs' with ha
    have hmem : a ∈ d := List.mem_of_mem_drop (hdj ▸ List.mem_cons_self a rest)
    rw [← ha] at hc0
    rw [hd a hmem] at hc0
    cases hc0

/-- Skip a whole block of hex characters when the pattern starts with a
non-hex character. -/
theorem countSub_hex_skip {p d t : List Char}
    (hd : ∀ c ∈ d, isHexUpper c = true)
    (hph : ∃ c0 t0, p = c0 :: t0 ∧ isHexUpper c0 = false) :
    countSub p (d ++ t) = countSub p t :=
  countSub_skip_of_no_pref d t (fun _ hj => no_pref_of_hex_head hd hph hj)

theorem no_pref_of_short_hex {p d t : List Char}
    (hpall : ∀ c ∈ p, isHexUpper c = true) (hl : d.length < p.length)
    (hth : ∃ c0 t0, t = c0 :: t0 ∧ isHexUpper c0 = false) :
    ¬ Pref p (d ++ t) := by
  intro hp
  obtain ⟨c0, t0, rfl, hc0⟩ := hth
  obtain ⟨_, h2⟩ := pref_split_long hp hl
  have hne : p.drop d.length ≠ [] := by
    intro h
    have := congrArg List.length h
    simp at this
    omega
  cases hpd : p.drop d.length with
  | nil => exact hne hpd
  | cons a rest =>
    rw [hpd] at h2
    obtain ⟨s', hs', _⟩ := pref_head h2
    injection hs' with ha
    have hmem : a ∈ p := List.mem_of_mem_drop (hpd ▸ List.mem_cons_self a rest)
    rw [ha] at hc0
    rw [hpall a hmem] at hc0
    cases hc0

/-- Skip a block shorter than an all-hex pattern when the next character is
not hex. -/
theorem countSub_shorter_skip {p d t : List Char}
    (hpall : ∀ c ∈ p, isHexUpper c = true) (hlen : d.length < p.length)
    (hth : ∃ c0 t0, t = c0 :: t0 ∧ isHexUpper c0 = false) :
    countSub p (d ++ t) = countSub p t := by
  apply countSub_skip_of_no_pref
  intro j hj
  apply no_pref_of_short_hex hpall ?_ hth
  rw [List.length_drop]
  omega

theorem countSub_hit_concrete {p t : List Char} (hp : p ≠ [])
    (hb : blockOkB p (p.drop 1) = true) :
    countSub p (p ++ t) = 1 + countSub p t := by
  cases p with
  | nil => exact absurd rfl hp
  | cons a p' =>
    rw [List.cons_append, countSub_cons]
    have hhit : prefB (a :: p') (a :: (p' ++ t)) = true := by
      rw [prefB_iff]
      exact ⟨t, by simp⟩
    rw [hhit]
    simp only [if_true]
    have hskip := @countSub_block_skip (a :: p') p' (by simpa using hb) t
    rw [hskip]

theorem countSub_hit_hex {p t : List Char}
    (hpall : ∀ c ∈ p, isHexUpper c = true) (hp : p ≠ [])
    (hth : ∃ c0 t0, t = c0 :: t0 ∧ isHexUpper c0 = false) :
    countSub p (p ++ t) = 1 + countSub p t := by
  cases p with
  | nil => exact absurd rfl hp
  | cons a p' =>
    rw [List.cons_append, countSub_cons]
    have hhit : prefB (a :: p') (a :: (p' ++ t)) = true := by
      rw [prefB_iff]
      exact ⟨t, by simp⟩
    rw [hhit]
    simp only [if_true]
    have hskip := countSub_shorter_skip (p := a :: p') (d := p')
      hpall (by simp) hth
    rw [hskip]

/-- Skip a hex block of the same length as the (distinct) all-hex pattern. -/
theorem countSub_hexid_other {p d t : List Char}
    (hpall : ∀ c ∈ p, isHexUpper c = true) (hlen : p.length = d.length)
    (hne : p ≠ d)
    (hth : ∃ c0 t0, t = c0 :: t0 ∧ isHexUpper c0 = false) :
    countSub p (d ++ t) = countSub p t := by
  apply countSub_skip_of_no_pref
  intro j hj
  cases j with
  | zero =>
    rw [List.drop_zero]
    intro hp
    have hple : p.length ≤ d.length := Nat.le_of_eq hlen
    have hpd : Pref p d := pref_of_le_of_pref_append hp hple
    have : d.take p.length = p := pref_take_eq hpd
    rw [hlen, List.take_length] at this
    exact hne this.symm
  | succ j' =>
    apply no_pref_of_short_hex hpall ?_ hth
    rw [List.length_drop]
    omega

/-! ## Hex windows -/

/-- No `w` consecutive characters of `s` are all uppercase hex. -/
def noWindowB (w : Nat) : List Char → Bool
  | [] => true
  | c :: t => (decide ((c :: t).length < w) || !((c :: t).take w).all isHexUpper)
      && noWindowB w t

theorem noWindow_no_pref {w : Nat} {h : List Char} (hh : h.length = w)
    (hhex : ∀ c ∈ h, isHexUpper c = true) (hpos : 0 < w) :
    ∀ s, noWindowB w s = true → ∀ i, ¬ Pref h (s.drop i) := by
  intro s
  induction s with
  | nil =>
    intro _ i hp
    rw [List.drop_nil] at hp
    have hl := pref_length hp
    rw [hh] at hl
    simp at hl
    omega
  | cons c t ih =>
    intro hnw i
    rw [noWindowB, Bool.and_eq_true] at hnw
    cases i with
    | zero =>
      rw [List.drop_zero]
      intro hp
      rcases Bool.or_eq_true _ _ |>.mp hnw.1 with hshort | hnothex
      · have := pref_length hp
        rw [hh] at this
        simp only [decide_eq_true_eq] at hshort
        omega
      · have htake : (c :: t).take w = h := by
          rw [← hh]
          exact pref_take_eq hp
        rw [htake] at hnothex
        rw [Bool.not_eq_true'] at hnothex
        have : (List.all h isHexUpper) = true := List.all_eq_true.mpr hhex
        rw [this] at hnothex
        cases hnothex
    | succ i' =>
      have := ih hnw.2 i'
      simpa using this

theorem noWindow_no_substr {w : Nat} {h s : List Char} (hw : noWindowB w s = true)
    (hh : h.length = w) (hhex : ∀ c ∈ h, isHexUpper c = true) (hpos : 0 < w) :
    ¬ IsSubstr h s := by
  intro hsub
  obtain ⟨i, hi⟩ := substr_iff_drop.1 hsub
  exact noWindow_no_pref hh hhex hpos s hw i hi

/-! ## Discharging the crossing conditions -/

/-- Decidable scan: no proper nonempty prefix of `A` of length at most
`ct.length` is a suffix of `ct`. -/
def scanOkB (A ct : List Char) : Bool :=
  (List.range A.length).all fun l =>
    decide (l = 0) || decide (ct.length < l)
      || !(decide (ct.drop (ct.length - l) = A.take l))

theorem scanOk_elim {A ct : List Char} (h : scanOkB A ct = true) {l : Nat}
    (h0 : 0 < l) (hA : l < A.length) (hct : l ≤ ct.length) :
    ct.drop (ct.length - l) ≠ A.take l := by
  have hb := range_all_elim h hA
  rw [Bool.or_eq_true, Bool.or_eq_true] at hb
  rcases hb with (h1 | h1) | h1
  · simp at h1; omega
  · simp at h1; omega
  · intro heq
    rw [heq] at h1
    simp at h1

/-- The uniform three-case argument killing every straddling occurrence of a
pattern `A` at the right edge of a fragment `pre ++ (hx ++ ct)` whose middle
block `hx` is a 24-character hex identifier. -/
theorem noCross_scheme {A pre hx ct : List Char}
    (hhx : ∀ c ∈ hx, isHexUpper c = true) (hxlen : hx.length = 24)
    (hWin : noWindowB 24 A = true)
    (hA0' : A.head?.map isHexUpper = some false)
    (hscan : scanOkB A ct = true) :
    ∀ l, 0 < l → l < A.length → ¬ Suff (A.take l) (pre ++ (hx ++ ct)) := by
  intro l hl0 hlA hsuff
  have hwlen : (A.take l).length = l := by
    rw [List.length_take]
    omega
  rcases le_or_lt l ct.length with hlct | hlct
  · have h1 : Suff (A.take l) (hx ++ ct) := by
      apply suff_split_short hsuff
      rw [hwlen, List.length_append]
      omega
    have h2 : Suff (A.take l) ct := by
      apply suff_split_short h1
      rw [hwlen]
      exact hlct
    have h3 := suff_drop_eq h2
    rw [hwlen] at h3
    exact scanOk_elim hscan hl0 hlA hlct h3
  · rcases le_or_lt l (ct.length + 24) with hl24 | hl24
    · have h1 : Suff (A.take l) (hx ++ ct) := by
        apply suff_split_short hsuff
        rw [hwlen, List.length_append, hxlen]
        omega
      obtain ⟨w', hw', hsw', hw'ne⟩ := suff_split_long h1 (by rw [hwlen]; exact hlct)
      obtain ⟨a0, A', hA, ha0⟩ : ∃ a0 A', A = a0 :: A' ∧ isHexUpper a0 = false := by
        cases A with
        | nil => simp at hA0'
        | cons a0 A' => exact ⟨a0, A', rfl, by simpa using hA0'⟩
      cases hwc : w' with
      | nil => exact hw'ne hwc
      | cons b w'' =>
        have hb : b = a0 := by
          have e1 : A.take l = b :: (w'' ++ ct) := by
            rw [hw', hwc, List.cons_append]
          rw [hA] at e1
          cases l with
          | zero => omega
          | succ l' =>
            rw [List.take_succ_cons] at e1
            injection e1 with e2 _
            exact e2.symm
        have hbhx : b ∈ hx := mem_of_suff (hwc ▸ hsw') (List.mem_cons_self b w'')
        rw [hb] at hbhx
        rw [hhx a0 hbhx] at ha0
        cases ha0
    · have hlen2 : (hx ++ ct).length < (A.take l).length := by
        rw [hwlen, List.length_append, hxlen]
        omega
      obtain ⟨w'', hw'', _, _⟩ := suff_split_long hsuff hlen2
      have hsub : IsSubstr hx A := by
        have h4 : IsSubstr hx (A.take l) := by
          rw [hw'']
          exact ⟨w'', ct, rfl⟩
        exact substr_trans h4 (substr_of_pref (pref_take A l))
      exact noWindow_no_substr hWin hxlen hhx (by omega) hsub

/-- Decidable form of the no-split condition for a pattern `A` against an
anchor `B`. -/
def noSplitB (A B : List Char) : Bool :=
  ((List.range (min A.length B.length + 1)).all fun l =>
    decide (l = 0) || decide (l = A.length)
      || !(decide (B.drop (B.length - l) = A.take l)))
  && !(containsSubB B (A.drop 1))

theorem noSplit_elim {A B : List Char} (h : noSplitB A B = true) :
    (∀ w, w ≠ [] → Suff w B → Pref w A → w = A) ∧ ¬ IsSubstr B (A.drop 1) := by
  rw [noSplitB, Bool.and_eq_true] at h
  constructor
  · intro w hw hsw hpw
    have hl1 : w.length ≤ B.length := suff_length hsw
    have hl2 : w.length ≤ A.length := pref_length hpw
    have hlr : w.length < min A.length B.length + 1 := by omega
    have hb := range_all_elim h.1 hlr
    rw [Bool.or_eq_true, Bool.or_eq_true] at hb
    rcases hb with (h0 | h0) | h0
    · simp at h0
      exact absurd h0 hw
    · simp at h0
      have htk := pref_take_eq hpw
      rw [h0, List.take_length] at htk
      exact htk.symm
    · exfalso
      have heq : B.drop (B.length - w.length) = A.take w.length := by
        rw [suff_drop_eq hsw, pref_take_eq hpw]
      rw [heq] at h0
      simp at h0
  · intro hs
    have hc := substr_iff_containsB.mp hs
    have h2 := h.2
    rw [hc] at h2
    simp at h2

/-! ## Small helper lemmas used by the claim proofs -/

theorem hexId_length {l : List Char} (h : hexIdB l = true) : l.length = 24 := by
  rw [hexIdB, Bool.and_eq_true] at h
  simpa using h.1

theorem hexId_mem {l : List Char} (h : hexIdB l = true) :
    ∀ c ∈ l, isHexUpper c = true := by
  rw [hexIdB, Bool.and_eq_true] at h
  exact List.all_eq_true.mp h.2

theorem hexId_ne_nil {l : List Char} (h : hexIdB l = true) : l ≠ [] := by
  intro hn
  have := hexId_length h
  rw [hn] at this
  simp at this

theorem not_hex_notin {l : List Char} (hl : ∀ c ∈ l, isHexUpper c = true) {c : Char}
    (hc : isHexUpper c = false) : c ∉ l := by
  intro hm
  rw [hl c hm] at hc
  cases hc

theorem headHex_elim {t : List Char} (h : t.head?.map isHexUpper = some false) :
    ∃ c0 t0, t = c0 :: t0 ∧ isHexUpper c0 = false := by
  cases t with
  | nil => simp at h
  | cons a t0 => exact ⟨a, t0, rfl, by simpa using h⟩

theorem headHex_append {x : List Char} (y : List Char)
    (hx : x.head?.map isHexUpper = some false) :
    ∃ c0 t0, x ++ y = c0 :: t0 ∧ isHexUpper c0 = false := by
  cases x with
  | nil => simp at hx
  | cons a x' => exact ⟨a, x' ++ y, rfl, by simpa using hx⟩

theorem mem_of_getLast_eq {l : List Char} {a : Char} (h : l.getLast? = some a) :
    a ∈ l := by
  have hmem : a ∈ l.getLast? := by rw [h]; rfl
  obtain ⟨hne, heq⟩ := List.mem_getLast?_eq_getLast hmem
  rw [heq]
  exact List.getLast_mem hne

theorem suff_getLast {w f : List Char} (h : Suff w f) (hw : w ≠ []) :
    f.getLast? = w.getLast? := by
  obtain ⟨t, rfl⟩ := h
  exact List.getLast?_append_of_ne_nil t hw

theorem take_ne_nil_of_pos {A : List Char} {l : Nat} (h0 : 0 < l) (hA : l ≤ A.length) :
    A.take l ≠ [] := by
  intro hn
  have hlen := congrArg List.length hn
  rw [List.length_take] at hlen
  simp only [List.length_nil] at hlen
  omega

theorem no_pref_head_mismatch {p d t : List Char}
    (hd : ∀ c ∈ d, isHexUpper c = false)
    (hpall : ∀ c ∈ p, isHexUpper c = true) (hp : p ≠ [])
    {j : Nat} (hj : j < d.length) : ¬ Pref p (d.drop j ++ t) := by
  intro hpref
  have hne : d.drop j ≠ [] := by
    intro h
    have := congrArg List.length h
    simp at this
    omega
  cases hdj : d.drop j with
  | nil => exact hne hdj
  | cons a rest =>
    cases p with
    | nil => exact hp rfl
    | cons c0 p0 =>
      rw [hdj, List.cons_append] at hpref
      obtain ⟨s', hs', _⟩ := pref_head hpref
      injection hs' with ha
      have hmem : a ∈ d := List.mem_of_mem_drop (hdj ▸ List.mem_cons_self a rest)
      have h1 := hd a hmem
      have h2 := hpall c0 (List.mem_cons_self c0 p0)
      rw [ha] at h1
      rw [h1] at h2
      cases h2

/-- Skip a concrete block of non-hex characters in front of an all-hex pattern. -/
theorem countSub_nonhex_skip {p cb t : List Char}
    (hcb : ∀ c ∈ cb, isHexUpper c = false)
    (hpall : ∀ c ∈ p, isHexUpper c = true) (hp : p ≠ []) :
    countSub p (cb ++ t) = countSub p t :=
  countSub_skip_of_no_pref cb t (fun _ hj => no_pref_head_mismatch hcb hpall hp hj)

theorem countSub_zero_of_noWindow {p s : List Char} (hp24 : p.length = 24)
    (hpall : ∀ c ∈ p, isHexUpper c = true) (hnw : noWindowB 24 s = true) :
    countSub p s = 0 := by
  have h0 : countSub p (s ++ []) = countSub p [] :=
    countSub_skip_of_no_pref s []
      (fun j _ hpref =>
        noWindow_no_pref hp24 hpall (by omega) s hnw j (by simpa using hpref))
  rw [List.append_nil] at h0
  rw [h0]
  apply countSub_nil
  intro hn
  rw [hn] at hp24
  simp at hp24

/-- Skip a concrete text block in front of a 24-character hex pattern: the
block has no 24-hex window and ends in a non-hex character. -/
theorem countSub_hexpat_concrete_skip {p cb t : List Char}
    (hpall : ∀ c ∈ p, isHexUpper c = true) (hp24 : p.length = 24)
    (hnw : noWindowB 24 cb = true)
    (hlast : cb.getLast?.map isHexUpper = some false) :
    countSub p (cb ++ t) = countSub p t := by
  apply countSub_skip_of_no_pref
  intro j hj hpref
  rcases le_or_lt p.length ((cb.drop j).length) with hle | hlt
  · have hpp := pref_of_le_of_pref_append hpref hle
    exact noWindow_no_pref hp24 hpall (by omega) cb hnw j hpp
  · obtain ⟨hpd, _⟩ := pref_split_long hpref hlt
    obtain ⟨ch, hch⟩ : ∃ ch, cb.getLast? = some ch := by
      cases hcl : cb.getLast? with
      | none => rw [hcl] at hlast; simp at hlast
      | some ch => exact ⟨ch, rfl⟩
    have hchx : isHexUpper ch = false := by
      rw [hch] at hlast
      simpa using hlast
    have hdne : cb.drop j ≠ [] := by
      intro h
      have := congrArg List.length h
      simp at this
      omega
    have hsuffd : Suff (cb.drop j) cb := ⟨cb.take j, cb.take_append_drop j⟩
    have hgl : (cb.drop j).getLast? = some ch := by
      rw [← suff_getLast hsuffd hdne, hch]
    have hchmem : ch ∈ cb.drop j := mem_of_getLast_eq hgl
    have hchp : ch ∈ p := mem_of_pref hpd hchmem
    rw [hpall ch hchp] at hchx
    cases hchx

theorem insertAfterFirst_take_form {pat frag s : List Char} {i : Nat}
    (h : findSub pat s = some i) :
    insertAfterFirst pat frag s
      = s.take (i + pat.length) ++ (frag ++ s.drop (i + pat.length)) := by
  rw [insertAfterFirst_of_some h, take_add_of_pref (findSub_some_pref h)]

/-- Decidable fact: no occurrence of `p` fits entirely inside `cb` starting at
any position of `cb`. -/
def blockOk1B (p cb : List Char) : Bool :=
  (List.range cb.length).all fun j =>
    decide (cb.length - j < p.length) || !(prefB p (cb.drop j))

/-- Skip a concrete block `cb` that is followed by a 24-character hex block:
no occurrence of `p` can start inside `cb`. -/
theorem countSub_preHex_skip {p cb hx rest : List Char}
    (h1 : blockOk1B p cb = true)
    (hplast : p.getLast?.map isHexUpper = some false)
    (hWinP : noWindowB 24 p = true)
    (hhx : ∀ c ∈ hx, isHexUpper c = true) (hxlen : hx.length = 24) :
    countSub p (cb ++ (hx ++ rest)) = countSub p (hx ++ rest) := by
  apply countSub_skip_of_no_pref
  intro j hj hpref
  rcases le_or_lt p.length (cb.drop j).length with hle | hlt
  · have hpp := pref_of_le_of_pref_append hpref hle
    have hb := range_all_elim h1 hj
    rw [Bool.or_eq_true] at hb
    rcases hb with hb | hb
    · simp only [decide_eq_true_eq] at hb
      rw [List.length_drop] at hle
      omega
    · rw [(prefB_iff _ _).2 hpp] at hb
      simp at hb
  · obtain ⟨hcbp, hq⟩ := pref_split_long hpref hlt
    have hqne : p.drop (cb.drop j).length ≠ [] := by
      intro h
      have hq := congrArg List.length h
      rw [List.length_drop] at hq
      simp only [List.length_nil] at hq
      omega
    rcases le_or_lt (p.drop (cb.drop j).length).length hx.length with hqle | hqgt
    · have hqhx : Pref (p.drop (cb.drop j).length) hx :=
        pref_of_le_of_pref_append hq hqle
      obtain ⟨ch, hch⟩ : ∃ ch, p.getLast? = some ch := by
        cases hcl : p.getLast? with
        | none => rw [hcl] at hplast; simp at hplast
        | some ch => exact ⟨ch, rfl⟩
      have hchx : isHexUpper ch = false := by
        rw [hch] at hplast
        simpa using hplast
      have hgl : (p.drop (cb.drop j).length).getLast? = some ch := by
        rw [← suff_getLast ⟨p.take (cb.drop j).length,
          p.take_append_drop (cb.drop j).length⟩ hqne, hch]
      have hchmem : ch ∈ p.drop (cb.drop j).length := mem_of_getLast_eq hgl
      have hchhx : ch ∈ hx := mem_of_pref hqhx hchmem
      rw [hhx ch hchhx] at hchx
      cases hchx
    · have hhxp := (pref_split_long hq hqgt).1
      have hsub : IsSubstr hx p :=
        substr_iff_drop.2 ⟨(cb.drop j).length, hhxp⟩
      exact noWindow_no_substr hWinP hxlen hhx (by omega) hsub

/-! ## Straddle-elimination for symbolic declaration lines -/

theorem suff_of_suff_le {u v s : List Char} (hu : Suff u s) (hv : Suff v s)
    (hle : u.length ≤ v.length) : Suff u v := by
  obtain ⟨tu, htu⟩ := hu
  obtain ⟨tv, htv⟩ := hv
  have h : tv ++ v = tu ++ u := by rw [htu, htv]
  rcases List.append_eq_append_iff.mp h with ⟨m, _, hm2⟩ | ⟨m, _, hm2⟩
  · exact ⟨m, hm2.symm⟩
  · have hlen := congrArg List.length hm2
    simp at hlen
    have hm : m = [] := List.eq_nil_of_length_eq_zero (by omega)
    subst hm
    rw [List.nil_append] at hm2
    rw [hm2]
    exact suff_refl v

theorem noCross_of_last_notin {A f : List Char}
    (hlast : ∀ ch, f.getLast? = some ch → ch ∉ A) :
    ∀ l, 0 < l → l < A.length → ¬ Suff (A.take l) f := by
  intro l hl0 hlA hsuff
  have hwne : A.take l ≠ [] := take_ne_nil_of_pos hl0 (by omega)
  have hfl := suff_getLast hsuff hwne
  obtain ⟨ch, hch⟩ : ∃ ch, (A.take l).getLast? = some ch := by
    cases hcl : (A.take l).getLast? with
    | none => exact absurd (List.getLast?_eq_none_iff.mp hcl) hwne
    | some ch => exact ⟨ch, rfl⟩
  apply hlast ch (by rw [hfl, hch])
  exact mem_of_pref (pref_take A l) (mem_of_getLast_eq hch)

theorem noCross_of_last2 {A f f₀ : List Char} {c1 c2 : Char}
    (hf : f = f₀ ++ [c1, c2]) (hh : A.head? ≠ some c2)
    (hc1 : c1 ∉ A.take (A.length - 2)) :
    ∀ l, 0 < l → l < A.length → ¬ Suff (A.take l) f := by
  intro l hl0 hlA hsuff
  have hwlen : (A.take l).length = l := by
    rw [List.length_take]
    omega
  rcases Nat.lt_or_ge l 2 with hl2 | hl2
  · have hl1 : l = 1 := by omega
    subst hl1
    have hwne : A.take 1 ≠ [] := take_ne_nil_of_pos (by omega) (by omega)
    have hfl := suff_getLast hsuff hwne
    have hflast : f.getLast? = some c2 := by
      rw [hf, List.getLast?_append_of_ne_nil _ (by simp)]
      rfl
    cases hA : A with
    | nil => rw [hA] at hlA; simp at hlA
    | cons a0 A' =>
      have h1 : A.take 1 = [a0] := by rw [hA]; rfl
      rw [h1] at hfl
      rw [hflast] at hfl
      have ha0 : a0 = c2 := by
        have : ([a0] : List Char).getLast? = some a0 := rfl
        rw [this] at hfl
        injection hfl with h2
        exact h2.symm
      apply hh
      rw [hA, ha0]
      rfl
  · have hsuffL : Suff [c1, c2] f := by
      rw [hf]
      exact ⟨f₀, rfl⟩
    have hs2 : Suff [c1, c2] (A.take l) := by
      apply suff_of_suff_le hsuffL hsuff
      rw [hwlen]
      simpa using hl2
    obtain ⟨t2, ht2⟩ := hs2
    have hlt2 : t2.length = l - 2 := by
      have hle := congrArg List.length ht2
      rw [hwlen] at hle
      simp at hle
      omega
    have hAl : 2 < A.length := by omega
    have hb1 : l - 2 < (A.take l).length := by rw [hwlen]; omega
    have hb2 : l - 2 < A.length := by omega
    have hb3 : l - 2 < (A.take (A.length - 2)).length := by
      rw [List.length_take]; omega
    have hgetw : (A.take l)[l - 2] = c1 := by
      have heq : A.take l = t2 ++ [c1, c2] := ht2.symm
      rw [List.getElem_of_eq heq]
      rw [List.getElem_append_right (by omega : t2.length ≤ l - 2)]
      have hix : l - 2 - t2.length = 0 := by omega
      simp [hix]
    have hgetA : A[l - 2] = c1 := by
      rw [← pref_getElem (pref_take A l) (l - 2) hb1 hb2]
      exact hgetw
    apply hc1
    have hget2 : (A.take (A.length - 2))[l - 2] = c1 := by
      rw [pref_getElem (pref_take A (A.length - 2)) (l - 2) hb3 hb2]
      exact hgetA
    rw [← hget2]
    exact List.getElem_mem _

/-! ## Concrete blocks, identifiers and documents used in witnesses -/

/-- The leading `"\n\t\t"` of the two declaration fragments. -/
def nl3 : List Char := ['\n', '\t', '\t']

/-- The leading `"\n\t\t\t\t"` of the two list-item fragments. -/
def nl5 : List Char := ['\n', '\t', '\t', '\t', '\t']

/-- The two-tab indentation of the declaration lines. -/
def tab2 : List Char := ['\t', '\t']

theorem fileRefLine_decomp (fId : List Char) :
    fileRefLine fId = tab2 ++ (fId ++ refTail) := rfl

theorem buildFileLine_decomp (bId fId : List Char) :
    buildFileLine bId fId = tab2 ++ (bId ++ (buildTail1 ++ (fId ++ buildTail2))) := rfl

theorem refFrag_decomp (fId : List Char) :
    refFrag fId = nl3 ++ (fId ++ refTail) := rfl

theorem buildFrag_decomp (bId fId : List Char) :
    buildFrag bId fId = nl3 ++ (bId ++ (buildTail1 ++ (fId ++ buildTail2))) := rfl

theorem buildFrag_decomp2 (bId fId : List Char) :
    buildFrag bId fId = (nl3 ++ (bId ++ buildTail1)) ++ (fId ++ buildTail2) := by
  rw [buildFrag_decomp]
  simp [List.append_assoc]

theorem groupFrag_decomp (fId : List Char) :
    groupFrag fId = nl5 ++ (fId ++ groupTail) := rfl

theorem sourcesFrag_decomp (bId : List Char) :
    sourcesFrag bId = nl5 ++ (bId ++ sourcesTail) := rfl

/-- A sample file-reference identifier (24 uppercase hex characters). -/
def idA : List Char := "0123456789ABCDEF01234567".toList

/-- A sample build-file identifier. -/
def idB : List Char := "89ABCDEF0123456789ABCDEF".toList

/-- A second-run sample file-reference identifier. -/
def idC : List Char := "FEDCBA9876543210FEDCBA98".toList

/-- A second-run sample build-file identifier. -/
def idD : List Char := "13579BDF02468ACE13579BDF".toList

/-- A well-formed sample document containing each anchor exactly once. -/
def wDoc : List Char :=
  ("/* Begin PBXFileReference section */\n/* Begin PBXBuildFile section */\nBB0002 /* ContentView.swift */,\nAA0002 /* ContentView.swift in Sources */,\n").toList

/-- A document with two occurrences of the file-reference marker, the first
at index 2. -/
def w2Doc : List Char :=
  ("XX/* Begin PBXFileReference section *//* Begin PBXFileReference section */").toList

/-- A document without the file-reference section marker but with the three
other anchors. -/
def noDoc : List Char :=
  ("/* Begin PBXBuildFile section */\nBB0002 /* ContentView.swift */,\nAA0002 /* ContentView.swift in Sources */,\n").toList

/-- A pathological document in which the build-file marker overlaps the end
of the file-reference marker, destroying it at the first insertion. -/
def cxDoc : List Char :=
  ("/* Begin PBXFileReference section */* Begin PBXBuildFile section */\nBB0002 /* ContentView.swift */,\nAA0002 /* ContentView.swift in Sources */,\n").toList

/-! ## Claim C3 -/

/-- Claim C3: every performed insertion places its fragment immediately after
the end of the first occurrence of its anchor in the current document: the
output is the prefix up to and including the anchor, then the fragment, then
the rest of the document unchanged.  Each of the four steps has this shape
(steps 2-4 search the already-modified document). -/
theorem c3_theorem (fId bId c : List Char) :
    (∀ i, findSub refMarker c = some i →
      step1 fId c = (c.take i ++ refMarker)
        ++ (refFrag fId ++ c.drop (i + refMarker.length))) ∧
    (∀ i, findSub buildMarker (step1 fId c) = some i →
      step2 bId fId (step1 fId c) = ((step1 fId c).take i ++ buildMarker)
        ++ (buildFrag bId fId ++ (step1 fId c).drop (i + buildMarker.length))) ∧
    (∀ i, findSub groupAnchor (step2 bId fId (step1 fId c)) = some i →
      step3 fId (step2 bId fId (step1 fId c))
        = ((step2 bId fId (step1 fId c)).take i ++ groupAnchor)
          ++ (groupFrag fId
            ++ (step2 bId fId (step1 fId c)).drop (i + groupAnchor.length))) ∧
    (∀ i, findSub sourcesAnchor (step3 fId (step2 bId fId (step1 fId c))) = some i →
      step4 bId (step3 fId (step2 bId fId (step1 fId c)))
        = ((step3 fId (step2 bId fId (step1 fId c))).take i ++ sourcesAnchor)
          ++ (sourcesFrag bId
            ++ (step3 fId (step2 bId fId (step1 fId c))).drop
              (i + sourcesAnchor.length))) := by
  refine ⟨?_, ?_, ?_, ?_⟩
  · intro i hi
    exact insertAfterFirst_of_some hi
  · intro i hi
    exact insertAfterFirst_of_some hi
  · intro i hi
    exact insertAfterFirst_of_some hi
  · intro i hi
    exact insertAfterFirst_of_some hi

/-- Witness for C3 at a concrete document: the first insertion really splices
the declaration right after the marker, which sits at index 0. -/
theorem c3_witness :
    step1 idA wDoc = (wDoc.take 0 ++ refMarker)
      ++ (refFrag idA ++ wDoc.drop (0 + refMarker.length)) :=
  (c3_theorem idA idB wDoc).1 0 (by decide)

/-! ## Claim C10 -/

/-- Claim C10: when an anchor occurs several times, the fragment is inserted
exactly once, immediately after the leftmost occurrence: the match index is
minimal, the output is a single splice at that index, and the length grows by
exactly one fragment.  This holds for each of the four insertion steps. -/
theorem c10_theorem (fId bId c : List Char) :
    (∀ i, findSub refMarker c = some i →
      (Pref refMarker (c.drop i) ∧ ∀ j, j < i → ¬ Pref refMarker (c.drop j)) ∧
      step1 fId c = c.take (i + refMarker.length)
        ++ (refFrag fId ++ c.drop (i + refMarker.length)) ∧
      (step1 fId c).length = c.length + (refFrag fId).length) ∧
    (∀ i, findSub buildMarker (step1 fId c) = some i →
      (Pref buildMarker ((step1 fId c).drop i) ∧
        ∀ j, j < i → ¬ Pref buildMarker ((step1 fId c).drop j)) ∧
      step2 bId fId (step1 fId c) = (step1 fId c).take (i + buildMarker.length)
        ++ (buildFrag bId fId ++ (step1 fId c).drop (i + buildMarker.length)) ∧
      (step2 bId fId (step1 fId c)).length
        = (step1 fId c).length + (buildFrag bId fId).length) ∧
    (∀ i, findSub groupAnchor (step2 bId fId (step1 fId c)) = some i →
      (Pref groupAnchor ((step2 bId fId (step1 fId c)).drop i) ∧
        ∀ j, j < i → ¬ Pref groupAnchor ((step2 bId fId (step1 fId c)).drop j)) ∧
      step3 fId (step2 bId fId (step1 fId c))
        = (step2 bId fId (step1 fId c)).take (i + groupAnchor.length)
          ++ (groupFrag fId
            ++ (step2 bId fId (step1 fId c)).drop (i + groupAnchor.length)) ∧
      (step3 fId (step2 bId fId (step1 fId c))).length
        = (step2 bId fId (step1 fId c)).length + (groupFrag fId).length) ∧
    (∀ i, findSub sourcesAnchor (step3 fId (step2 bId fId (step1 fId c))) = some i →
      (Pref sourcesAnchor ((step3 fId (step2 bId fId (step1 fId c))).drop i) ∧
        ∀ j, j < i →
          ¬ Pref sourcesAnchor ((step3 fId (step2 bId fId (step1 fId c))).drop j)) ∧
      step4 bId (step3 fId (step2 bId fId (step1 fId c)))
        = (step3 fId (step2 bId fId (step1 fId c))).take (i + sourcesAnchor.length)
          ++ (sourcesFrag bId
            ++ (step3 fId (step2 bId fId (step1 fId c))).drop
              (i + sourcesAnchor.length)) ∧
      (step4 bId (step3 fId (step2 bId fId (step1 fId c)))).length
        = (step3 fId (step2 bId fId (step1 fId c))).length
          + (sourcesFrag bId).length) := by
  refine ⟨?_, ?_, ?_, ?_⟩ <;>
    intro i hi <;>
    exact ⟨⟨findSub_some_pref hi, findSub_some_min hi⟩,
      insertAfterFirst_take_form hi,
      insertAfterFirst_length_of_some (by decide) hi⟩

/-- Witness for C10 on a document with two marker occurrences, the first at
index 2: the insertion happens after the first one and the document grows by
exactly one fragment. -/
theorem c10_witness :
    step1 idA w2Doc = w2Doc.take (2 + refMarker.length)
      ++ (refFrag idA ++ w2Doc.drop (2 + refMarker.length)) ∧
    (step1 idA w2Doc).length = w2Doc.length + (refFrag idA).length :=
  ⟨((c10_theorem idA idB w2Doc).1 2 (by decide)).2.1,
   ((c10_theorem idA idB w2Doc).1 2 (by decide)).2.2⟩

/-! ## Claim C9 -/

/-- Claim C9: the transformation is deterministic given its random inputs:
equal documents and equal identifier pairs give equal patched documents and
equal printed lines; the identifiers are the only source of variation. -/
theorem c9_theorem (fId₁ fId₂ bId₁ bId₂ c₁ c₂ : List Char)
    (hf : fId₁ = fId₂) (hb : bId₁ = bId₂) (hc : c₁ = c₂) :
    patch fId₁ bId₁ c₁ = patch fId₂ bId₂ c₂ ∧
    (progOutput fId₁ bId₁ c₁).2 = (progOutput fId₂ bId₂ c₂).2 := by
  subst hf
  subst hb
  subst hc
  exact ⟨rfl, rfl⟩

/-- Witness for C9 at concrete equal inputs. -/
theorem c9_witness :
    patch idA idB wDoc = patch idA idB wDoc ∧
    (progOutput idA idB wDoc).2 = (progOutput idA idB wDoc).2 :=
  c9_theorem idA idA idB idB wDoc wDoc rfl rfl rfl

/-! ## Claim C7 -/

/-- Claim C7: whatever the document contains — all, some or none of the
anchors — the printed lines are always the same success line and the two
identifier lines; the printed output never distinguishes a fully patched run
from a partially patched run. -/
theorem c7_theorem (fId bId c c' : List Char) :
    (progOutput fId bId c).2 = [successLine, refIdLine fId, buildIdLine bId] ∧
    (progOutput fId bId c).2 = (progOutput fId bId c').2 :=
  ⟨rfl, rfl⟩

/-! ## Claim C6 -/

/-- Counterexample to C6 as stated: the printed lines are not the two
identifier lines followed by the success line; the success line comes first
(source lines 55-57 print the success message before the identifiers). -/
theorem c6_counterexample :
    ¬ ((progOutput idA idB wDoc).2
      = [refIdLine idA, buildIdLine idB, successLine]) := by
  decide

/-- Claim C6 (amended): in the end-to-end scenario the process prints the
success message first, then the `File Reference ID` line, then the
`Build File ID` line; the two printed identifiers are 24-character uppercase
hexadecimal strings. -/
theorem c6_theorem (u v : List (Fin 16)) (c : List Char)
    (hu : u.length = 32) (hv : v.length = 32) :
    (progOutput (genId u) (genId v) c).2
      = [successLine, refIdLine (genId u), buildIdLine (genId v)] ∧
    (genId u).length = 24 ∧ (genId v).length = 24 ∧
    (∀ ch ∈ genId u, isHexUpper ch = true) ∧
    (∀ ch ∈ genId v, isHexUpper ch = true) := by
  refine ⟨rfl, ?_, ?_, ?_, ?_⟩
  · rw [genId, uuidHex]
    simp [hu]
  · rw [genId, uuidHex]
    simp [hv]
  · intro ch hch
    rw [genId] at hch
    obtain ⟨d, hd, rfl⟩ := List.mem_map.mp hch
    obtain ⟨n, _, rfl⟩ := List.mem_map.mp (List.mem_of_mem_take hd)
    exact (by decide : ∀ n : Fin 16, isHexUpper (Char.toUpper (nibbleChar n)) = true) n
  · intro ch hch
    rw [genId] at hch
    obtain ⟨d, hd, rfl⟩ := List.mem_map.mp hch
    obtain ⟨n, _, rfl⟩ := List.mem_map.mp (List.mem_of_mem_take hd)
    exact (by decide : ∀ n : Fin 16, isHexUpper (Char.toUpper (nibbleChar n)) = true) n

/-- Witness for the amended C6 at concrete draws. -/
theorem c6_witness :
    (progOutput (genId (List.replicate 32 (0 : Fin 16)))
        (genId (List.replicate 32 (1 : Fin 16))) wDoc).2
      = [successLine, refIdLine (genId (List.replicate 32 (0 : Fin 16))),
         buildIdLine (genId (List.replicate 32 (1 : Fin 16)))] ∧
    (genId (List.replicate 32 (0 : Fin 16))).length = 24 :=
  ⟨(c6_theorem (List.replicate 32 (0 : Fin 16)) (List.replicate 32 (1 : Fin 16)) wDoc
      (by decide) (by decide)).1,
   (c6_theorem (List.replicate 32 (0 : Fin 16)) (List.replicate 32 (1 : Fin 16)) wDoc
      (by decide) (by decide)).2.1⟩

/-! ## Claim C5 -/

/-- Claim C5: each generated identifier (`uuid4().hex[:24].upper()` of a
32-nibble draw) is exactly 24 characters, all uppercase hexadecimal, and two
draws differing in their first 24 nibbles give distinct identifiers. -/
theorem c5_theorem (u : List (Fin 16)) (hu : u.length = 32) :
    (genId u).length = 24 ∧
    (∀ ch ∈ genId u, isHexUpper ch = true) ∧
    (∀ v : List (Fin 16), v.length = 32 → u.take 24 ≠ v.take 24 →
      genId u ≠ genId v) := by
  refine ⟨?_, ?_, ?_⟩
  · rw [genId, uuidHex]
    simp [hu]
  · intro ch hch
    rw [genId] at hch
    obtain ⟨d, hd, rfl⟩ := List.mem_map.mp hch
    obtain ⟨n, _, rfl⟩ := List.mem_map.mp (List.mem_of_mem_take hd)
    exact (by decide : ∀ n : Fin 16, isHexUpper (Char.toUpper (nibbleChar n)) = true) n
  · intro v _ hne heq
    apply hne
    have hrw : ∀ w : List (Fin 16),
        genId w = (w.take 24).map (fun n => Char.toUpper (nibbleChar n)) := by
      intro w
      rw [genId, uuidHex, ← List.map_take, List.map_map]
      rfl
    rw [hrw u, hrw v] at heq
    have hinj : Function.Injective (fun n : Fin 16 => Char.toUpper (nibbleChar n)) := by
      intro a b hab
      exact (by decide : ∀ a b : Fin 16,
        Char.toUpper (nibbleChar a) = Char.toUpper (nibbleChar b) → a = b) a b hab
    exact List.map_injective_iff.mpr hinj heq

/-- Witness for C5: two concrete draws differing in the first nibble give
distinct 24-character identifiers. -/
theorem c5_witness :
    (genId (List.replicate 32 (0 : Fin 16))).length = 24 ∧
    genId (List.replicate 32 (0 : Fin 16)) ≠ genId (List.replicate 32 (1 : Fin 16)) :=
  ⟨(c5_theorem (List.replicate 32 (0 : Fin 16)) (by decide)).1,
   (c5_theorem (List.replicate 32 (0 : Fin 16)) (by decide)).2.2
     (List.replicate 32 (1 : Fin 16)) (by decide) (by decide)⟩

/-! ## Claim C8: the input survives as at most five unmodified blocks -/

/-- One insertion (or no-op): `t` is `s` with one block spliced in. -/
def Ins1 (s t : List Char) : Prop :=
  ∃ a f b, s = a ++ b ∧ t = a ++ (f ++ b)

/-- Two insertions: `s` split into three blocks. -/
def Ins2 (s t : List Char) : Prop :=
  ∃ a1 f1 a2 f2 a3, s = a1 ++ (a2 ++ a3) ∧ t = a1 ++ (f1 ++ (a2 ++ (f2 ++ a3)))

/-- Three insertions: `s` split into four blocks. -/
def Ins3 (s t : List Char) : Prop :=
  ∃ a1 f1 a2 f2 a3 f3 a4, s = a1 ++ (a2 ++ (a3 ++ a4)) ∧
    t = a1 ++ (f1 ++ (a2 ++ (f2 ++ (a3 ++ (f3 ++ a4)))))

/-- Four insertions: `s` split into at most five contiguous unmodified
blocks, interleaved with at most four inserted blocks. -/
def Ins4 (s t : List Char) : Prop :=
  ∃ a1 f1 a2 f2 a3 f3 a4 f4 a5, s = a1 ++ (a2 ++ (a3 ++ (a4 ++ a5))) ∧
    t = a1 ++ (f1 ++ (a2 ++ (f2 ++ (a3 ++ (f3 ++ (a4 ++ (f4 ++ a5)))))))

theorem ins1_insertAfterFirst (pat frag s : List Char) :
    Ins1 s (insertAfterFirst pat frag s) := by
  rcases hf : findSub pat s with _ | i
  · rw [insertAfterFirst_of_none hf]
    exact ⟨s, [], [], by simp, by simp⟩
  · rw [insertAfterFirst_take_form hf]
    exact ⟨s.take (i + pat.length), frag, s.drop (i + pat.length),
      (s.take_append_drop _).symm, rfl⟩

theorem ins1_comp {s t u : List Char} (h1 : Ins1 s t) (h2 : Ins1 t u) : Ins2 s u := by
  obtain ⟨a, f, b, hs, ht⟩ := h1
  obtain ⟨x, g, y, htxy, hu⟩ := h2
  rw [ht] at htxy
  rcases List.append_eq_append_iff.mp htxy with ⟨m, hx, hrest⟩ | ⟨m, ha, hy⟩
  · rcases List.append_eq_append_iff.mp hrest with ⟨k, hm, hb⟩ | ⟨k, hfk, hy2⟩
    · refine ⟨a, f, k, g, y, ?_, ?_⟩
      · rw [hs, hb]
      · rw [hu, hx, hm]
        simp [List.append_assoc]
    · refine ⟨a, m ++ (g ++ k), [], [], b, ?_, ?_⟩
      · rw [hs]
        simp
      · rw [hu, hx, hy2]
        simp [List.append_assoc]
  · refine ⟨x, g, m, f, b, ?_, ?_⟩
    · rw [hs, ha]
      simp [List.append_assoc]
    · rw [hu, hy]

theorem ins2_comp {s t u : List Char} (h1 : Ins2 s t) (h2 : Ins1 t u) : Ins3 s u := by
  obtain ⟨a1, f1, a2, f2, a3, hs, ht⟩ := h1
  obtain ⟨x, g, y, htxy, hu⟩ := h2
  rw [ht] at htxy
  rcases List.append_eq_append_iff.mp htxy with ⟨m, hx, hr1⟩ | ⟨m, ha1, hy⟩
  · rcases List.append_eq_append_iff.mp hr1 with ⟨k, hm, hr2⟩ | ⟨k, hf1, hy2⟩
    · rcases List.append_eq_append_iff.mp hr2 with ⟨r, hk, hr3⟩ | ⟨r, ha2, hy3⟩
      · rcases List.append_eq_append_iff.mp hr3 with ⟨q, hrq, hr4⟩ | ⟨q, hf2, hy4⟩
        · refine ⟨a1, f1, a2, f2, q, g, y, ?_, ?_⟩
          · rw [hs, hr4]
          · rw [hu, hx, hm, hk, hrq]
            simp [List.append_assoc]
        · refine ⟨a1, f1, a2, r ++ (g ++ q), [], [], a3, ?_, ?_⟩
          · rw [hs]
            simp
          · rw [hu, hx, hm, hk, hy4]
            simp [List.append_assoc]
      · refine ⟨a1, f1, k, g, r, f2, a3, ?_, ?_⟩
        · rw [hs, ha2]
          simp [List.append_assoc]
        · rw [hu, hx, hm, hy3]
          simp [List.append_assoc]
    · refine ⟨a1, m ++ (g ++ k), [], [], a2, f2, a3, ?_, ?_⟩
      · rw [hs]
        simp
      · rw [hu, hx, hy2]
        simp [List.append_assoc]
  · refine ⟨x, g, m, f1, a2, f2, a3, ?_, ?_⟩
    · rw [hs, ha1]
      simp [List.append_assoc]
    · rw [hu, hy]

theorem ins3_comp {s t u : List Char} (h1 : Ins3 s t) (h2 : Ins1 t u) : Ins4 s u := by
  obtain ⟨a1, f1, a2, f2, a3, f3, a4, hs, ht⟩ := h1
  obtain ⟨x, g, y, htxy, hu⟩ := h2
  rw [ht] at htxy
  rcases List.append_eq_append_iff.mp htxy with ⟨m, hx, hr1⟩ | ⟨m, ha1, hy⟩
  · rcases List.append_eq_append_iff.mp hr1 with ⟨k, hm, hr2⟩ | ⟨k, hf1, hy2⟩
    · rcases List.append_eq_append_iff.mp hr2 with ⟨r, hk, hr3⟩ | ⟨r, ha2, hy3⟩
      · rcases List.append_eq_append_iff.mp hr3 with ⟨q, hrq, hr4⟩ | ⟨q, hf2, hy4⟩
        · rcases List.append_eq_append_iff.mp hr4 with ⟨w, hq, hr5⟩ | ⟨w, ha3, hy5⟩
          · rcases List.append_eq_append_iff.mp hr5 with ⟨z, hw, hr6⟩ | ⟨z, hf3, hy6⟩
            · refine ⟨a1, f1, a2, f2, a3, f3, z, g, y, ?_, ?_⟩
              · rw [hs, hr6]
              · rw [hu, hx, hm, hk, hrq, hq, hw]
                simp [List.append_assoc]
            · refine ⟨a1, f1, a2, f2, a3, w ++ (g ++ z), [], [], a4, ?_, ?_⟩
              · rw [hs]
                simp
              · rw [hu, hx, hm, hk, hrq, hq, hy6]
                simp [List.append_assoc]
          · refine ⟨a1, f1, a2, f2, q, g, w, f3, a4, ?_, ?_⟩
            · rw [hs, ha3]
              simp [List.append_assoc]
            · rw [hu, hx, hm, hk, hrq, hy5]
              simp [List.append_assoc]
        · refine ⟨a1, f1, a2, r ++ (g ++ q), [], [], a3, f3, a4, ?_, ?_⟩
          · rw [hs]
            simp
          · rw [hu, hx, hm, hk, hy4]
            simp [List.append_assoc]
      · refine ⟨a1, f1, k, g, r, f2, a3, f3, a4, ?_, ?_⟩
        · rw [hs, ha2]
          simp [List.append_assoc]
        · rw [hu, hx, hm, hy3]
          simp [List.append_assoc]
    · refine ⟨a1, m ++ (g ++ k), [], [], a2, f2, a3, f3, a4, ?_, ?_⟩
      · rw [hs]
        simp
      · rw [hu, hx, hy2]
        simp [List.append_assoc]
  · refine ⟨x, g, m, f1, a2, f2, a3, f3, a4, ?_, ?_⟩
    · rw [hs, ha1]
      simp [List.append_assoc]
    · rw [hu, hy]

theorem sublist_insertAfterFirst (pat frag s : List Char) :
    s.Sublist (insertAfterFirst pat frag s) := by
  rcases hf : findSub pat s with _ | i
  · rw [insertAfterFirst_of_none hf]
  · rw [insertAfterFirst_take_form hf]
    conv_lhs => rw [← s.take_append_drop (i + pat.length)]
    exact List.Sublist.append_left (List.sublist_append_right frag _) _

/-- Claim C8: the patched document is obtained from the input solely by
inserting at most four blocks at interior positions: the input is a
subsequence of the output, partitioned into at most five contiguous
unmodified blocks; no existing text is deleted or altered. -/
theorem c8_theorem (fId bId c : List Char) :
    c.Sublist (patch fId bId c) ∧ Ins4 c (patch fId bId c) := by
  constructor
  · exact ((((sublist_insertAfterFirst refMarker (refFrag fId) c).trans
      (sublist_insertAfterFirst buildMarker (buildFrag bId fId) (step1 fId c))).trans
      (sublist_insertAfterFirst groupAnchor (groupFrag fId)
        (step2 bId fId (step1 fId c)))).trans
      (sublist_insertAfterFirst sourcesAnchor (sourcesFrag bId)
        (step3 fId (step2 bId fId (step1 fId c)))))
  · exact ins3_comp (ins2_comp
      (ins1_comp (ins1_insertAfterFirst refMarker (refFrag fId) c)
        (ins1_insertAfterFirst buildMarker (buildFrag bId fId) (step1 fId c)))
      (ins1_insertAfterFirst groupAnchor (groupFrag fId) (step2 bId fId (step1 fId c))))
      (ins1_insertAfterFirst sourcesAnchor (sourcesFrag bId)
        (step3 fId (step2 bId fId (step1 fId c))))

/-! ## Occurrence counts of the identifiers inside the four fragments -/

theorem countSub_hit_preHex {p hx rest : List Char} (hp : p ≠ [])
    (h1 : blockOk1B p (p.drop 1) = true)
    (hplast : p.getLast?.map isHexUpper = some false)
    (hWinP : noWindowB 24 p = true)
    (hhx : ∀ c ∈ hx, isHexUpper c = true) (hxlen : hx.length = 24) :
    countSub p (p ++ (hx ++ rest)) = 1 + countSub p (hx ++ rest) := by
  cases hpc : p with
  | nil => exact absurd hpc hp
  | cons a p' =>
    rw [List.cons_append, countSub_cons]
    have hhit : prefB (a :: p') (a :: (p' ++ (hx ++ rest))) = true := by
      rw [prefB_iff]
      exact ⟨hx ++ rest, by simp⟩
    rw [hhit]
    simp only [if_true]
    have hskip := @countSub_preHex_skip (a :: p') p' hx rest
      (by simpa [hpc] using h1) (by rw [← hpc]; rw [hpc]; simpa [hpc] using hplast)
      (by simpa [hpc] using hWinP) hhx hxlen
    rw [hskip]

theorem count_fId_fileRefLine {fId : List Char} (hf : hexIdB fId = true) :
    countSub fId (fileRefLine fId) = 1 := by
  rw [fileRefLine_decomp,
    countSub_nonhex_skip (by decide) (hexId_mem hf) (hexId_ne_nil hf),
    countSub_hit_hex (hexId_mem hf) (hexId_ne_nil hf) (headHex_elim (by decide)),
    countSub_zero_of_noWindow (hexId_length hf) (hexId_mem hf) (by decide)]

theorem count_fId_buildFileLine {fId bId : List Char} (hf : hexIdB fId = true)
    (hb : hexIdB bId = true) (hne : fId ≠ bId) :
    countSub fId (buildFileLine bId fId) = 1 := by
  rw [buildFileLine_decomp,
    countSub_nonhex_skip (by decide) (hexId_mem hf) (hexId_ne_nil hf),
    countSub_hexid_other (hexId_mem hf)
      (by rw [hexId_length hf, hexId_length hb]) hne
      (headHex_append _ (by decide)),
    countSub_hexpat_concrete_skip (hexId_mem hf) (hexId_length hf)
      (by decide) (by decide),
    countSub_hit_hex (hexId_mem hf) (hexId_ne_nil hf) (headHex_elim (by decide)),
    countSub_zero_of_noWindow (hexId_length hf) (hexId_mem hf) (by decide)]

theorem count_bId_buildFileLine {fId bId : List Char} (hf : hexIdB fId = true)
    (hb : hexIdB bId = true) (hne : fId ≠ bId) :
    countSub bId (buildFileLine bId fId) = 1 := by
  rw [buildFileLine_decomp,
    countSub_nonhex_skip (by decide) (hexId_mem hb) (hexId_ne_nil hb),
    countSub_hit_hex (hexId_mem hb) (hexId_ne_nil hb)
      (headHex_append _ (by decide)),
    countSub_hexpat_concrete_skip (hexId_mem hb) (hexId_length hb)
      (by decide) (by decide),
    countSub_hexid_other (hexId_mem hb)
      (by rw [hexId_length hb, hexId_length hf]) (fun h => hne h.symm)
      (headHex_elim (by decide)),
    countSub_zero_of_noWindow (hexId_length hb) (hexId_mem hb) (by decide)]

theorem count_fId_groupFrag {fId : List Char} (hf : hexIdB fId = true) :
    countSub fId (groupFrag fId) = 1 := by
  rw [groupFrag_decomp,
    countSub_nonhex_skip (by decide) (hexId_mem hf) (hexId_ne_nil hf),
    countSub_hit_hex (hexId_mem hf) (hexId_ne_nil hf) (headHex_elim (by decide)),
    countSub_zero_of_noWindow (hexId_length hf) (hexId_mem hf) (by decide)]

theorem count_bId_sourcesFrag {bId : List Char} (hb : hexIdB bId = true) :
    countSub bId (sourcesFrag bId) = 1 := by
  rw [sourcesFrag_decomp,
    countSub_nonhex_skip (by decide) (hexId_mem hb) (hexId_ne_nil hb),
    countSub_hit_hex (hexId_mem hb) (hexId_ne_nil hb) (headHex_elim (by decide)),
    countSub_zero_of_noWindow (hexId_length hb) (hexId_mem hb) (by decide)]

/-! ## Occurrence counts of the four constant location patterns inside the
four fragments -/

theorem count_refTail_refFrag {fId : List Char} (hf : hexIdB fId = true) :
    countSub refTail (refFrag fId) = 1 := by
  rw [refFrag_decomp, countSub_block_skip (by decide),
    countSub_hex_skip (hexId_mem hf) (headHex_elim (by decide))]
  decide

theorem count_refTail_buildFrag {fId bId : List Char} (hf : hexIdB fId = true)
    (hb : hexIdB bId = true) : countSub refTail (buildFrag bId fId) = 0 := by
  rw [buildFrag_decomp, countSub_block_skip (by decide),
    countSub_hex_skip (hexId_mem hb) (headHex_elim (by decide)),
    countSub_preHex_skip (by decide) (by decide) (by decide)
      (hexId_mem hf) (hexId_length hf),
    countSub_hex_skip (hexId_mem hf) (headHex_elim (by decide))]
  decide

theorem count_refTail_groupFrag {fId : List Char} (hf : hexIdB fId = true) :
    countSub refTail (groupFrag fId) = 0 := by
  rw [groupFrag_decomp, countSub_block_skip (by decide),
    countSub_hex_skip (hexId_mem hf) (headHex_elim (by decide))]
  decide

theorem count_refTail_sourcesFrag {bId : List Char} (hb : hexIdB bId = true) :
    countSub refTail (sourcesFrag bId) = 0 := by
  rw [sourcesFrag_decomp, countSub_block_skip (by decide),
    countSub_hex_skip (hexId_mem hb) (headHex_elim (by decide))]
  decide

theorem count_bt1_refFrag {fId : List Char} (hf : hexIdB fId = true) :
    countSub buildTail1 (refFrag fId) = 0 := by
  rw [refFrag_decomp, countSub_block_skip (by decide),
    countSub_hex_skip (hexId_mem hf) (headHex_elim (by decide))]
  decide

theorem count_bt1_buildFrag {fId bId : List Char} (hf : hexIdB fId = true)
    (hb : hexIdB bId = true) : countSub buildTail1 (buildFrag bId fId) = 1 := by
  rw [buildFrag_decomp, countSub_block_skip (by decide),
    countSub_hex_skip (hexId_mem hb) (headHex_elim (by decide)),
    countSub_hit_preHex (by decide) (by decide) (by decide) (by decide)
      (hexId_mem hf) (hexId_length hf),
    countSub_hex_skip (hexId_mem hf) (headHex_elim (by decide))]
  decide

theorem count_bt1_groupFrag {fId : List Char} (hf : hexIdB fId = true) :
    countSub buildTail1 (groupFrag fId) = 0 := by
  rw [groupFrag_decomp, countSub_block_skip (by decide),
    countSub_hex_skip (hexId_mem hf) (headHex_elim (by decide))]
  decide

theorem count_bt1_sourcesFrag {bId : List Char} (hb : hexIdB bId = true) :
    countSub buildTail1 (sourcesFrag bId) = 0 := by
  rw [sourcesFrag_decomp, countSub_block_skip (by decide),
    countSub_hex_skip (hexId_mem hb) (headHex_elim (by decide))]
  decide

theorem count_gt_refFrag {fId : List Char} (hf : hexIdB fId = true) :
    countSub groupTail (refFrag fId) = 0 := by
  rw [refFrag_decomp, countSub_block_skip (by decide),
    countSub_hex_skip (hexId_mem hf) (headHex_elim (by decide))]
  decide

theorem count_gt_buildFrag {fId bId : List Char} (hf : hexIdB fId = true)
    (hb : hexIdB bId = true) : countSub groupTail (buildFrag bId fId) = 0 := by
  rw [buildFrag_decomp, countSub_block_skip (by decide),
    countSub_hex_skip (hexId_mem hb) (headHex_elim (by decide)),
    countSub_preHex_skip (by decide) (by decide) (by decide)
      (hexId_mem hf) (hexId_length hf),
    countSub_hex_skip (hexId_mem hf) (headHex_elim (by decide))]
  decide

theorem count_gt_groupFrag {fId : List Char} (hf : hexIdB fId = true) :
    countSub groupTail (groupFrag fId) = 1 := by
  rw [groupFrag_decomp, countSub_block_skip (by decide),
    countSub_hex_skip (hexId_mem hf) (headHex_elim (by decide))]
  decide

theorem count_gt_sourcesFrag {bId : List Char} (hb : hexIdB bId = true) :
    countSub groupTail (sourcesFrag bId) = 0 := by
  rw [sourcesFrag_decomp, countSub_block_skip (by decide),
    countSub_hex_skip (hexId_mem hb) (headHex_elim (by decide))]
  decide

theorem count_st_refFrag {fId : List Char} (hf : hexIdB fId = true) :
    countSub sourcesTail (refFrag fId) = 0 := by
  rw [refFrag_decomp, countSub_block_skip (by decide),
    countSub_hex_skip (hexId_mem hf) (headHex_elim (by decide))]
  decide

theorem count_st_buildFrag {fId bId : List Char} (hf : hexIdB fId = true)
    (hb : hexIdB bId = true) : countSub sourcesTail (buildFrag bId fId) = 0 := by
  rw [buildFrag_decomp, countSub_block_skip (by decide),
    countSub_hex_skip (hexId_mem hb) (headHex_elim (by decide)),
    countSub_preHex_skip (by decide) (by decide) (by decide)
      (hexId_mem hf) (hexId_length hf),
    countSub_hex_skip (hexId_mem hf) (headHex_elim (by decide))]
  decide

theorem count_st_groupFrag {fId : List Char} (hf : hexIdB fId = true) :
    countSub sourcesTail (groupFrag fId) = 0 := by
  rw [groupFrag_decomp, countSub_block_skip (by decide),
    countSub_hex_skip (hexId_mem hf) (headHex_elim (by decide))]
  decide

theorem count_st_sourcesFrag {bId : List Char} (hb : hexIdB bId = true) :
    countSub sourcesTail (sourcesFrag bId) = 1 := by
  rw [sourcesFrag_decomp, countSub_block_skip (by decide),
    countSub_hex_skip (hexId_mem hb) (headHex_elim (by decide))]
  decide

/-! ## No pattern occurrence straddles the right edge of a fragment -/

theorem nocross_frag_simple {A id ct' : List Char} (nlk : List Char)
    (hid : hexIdB id = true) (hWin : noWindowB 24 A = true)
    (hA0 : A.head?.map isHexUpper = some false) (hscan : scanOkB A ct' = true) :
    ∀ l, 0 < l → l < A.length → ¬ Suff (A.take l) (nlk ++ (id ++ ct')) :=
  noCross_scheme (hexId_mem hid) (hexId_length hid) hWin hA0 hscan

/-! ## The count of a pattern across one whole run -/

theorem countSub_patch_add (A fId bId c : List Char) (i1 i2 i3 i4 : Nat)
    (hA : A ≠ []) (hnl : '\n' ∉ A)
    (h1 : findSub refMarker c = some i1)
    (h2 : findSub buildMarker (step1 fId c) = some i2)
    (h3 : findSub groupAnchor (step2 bId fId (step1 fId c)) = some i3)
    (h4 : findSub sourcesAnchor (step3 fId (step2 bId fId (step1 fId c))) = some i4)
    (hs1 : noSplitB A refMarker = true) (hs2 : noSplitB A buildMarker = true)
    (hs3 : noSplitB A groupAnchor = true) (hs4 : noSplitB A sourcesAnchor = true)
    (hx1 : ∀ l, 0 < l → l < A.length → ¬ Suff (A.take l) (refFrag fId))
    (hx2 : ∀ l, 0 < l → l < A.length → ¬ Suff (A.take l) (buildFrag bId fId))
    (hx3 : ∀ l, 0 < l → l < A.length → ¬ Suff (A.take l) (groupFrag fId))
    (hx4 : ∀ l, 0 < l → l < A.length → ¬ Suff (A.take l) (sourcesFrag bId)) :
    countSub A (patch fId bId c)
      = countSub A c + countSub A (refFrag fId) + countSub A (buildFrag bId fId)
        + countSub A (groupFrag fId) + countSub A (sourcesFrag bId) := by
  have e1 : countSub A (step1 fId c) = countSub A c + countSub A (refFrag fId) :=
    countSub_insert hA h1 (noSplit_elim hs1).1 (noSplit_elim hs1).2 hnl
      ⟨fileRefLine fId, rfl⟩ hx1
  have e2 : countSub A (step2 bId fId (step1 fId c))
      = countSub A (step1 fId c) + countSub A (buildFrag bId fId) :=
    countSub_insert hA h2 (noSplit_elim hs2).1 (noSplit_elim hs2).2 hnl
      ⟨buildFileLine bId fId, rfl⟩ hx2
  have e3 : countSub A (step3 fId (step2 bId fId (step1 fId c)))
      = countSub A (step2 bId fId (step1 fId c)) + countSub A (groupFrag fId) :=
    countSub_insert hA h3 (noSplit_elim hs3).1 (noSplit_elim hs3).2 hnl
      ⟨'\t' :: '\t' :: '\t' :: '\t' :: (fId ++ groupTail), rfl⟩ hx3
  have e4 : countSub A (step4 bId (step3 fId (step2 bId fId (step1 fId c))))
      = countSub A (step3 fId (step2 bId fId (step1 fId c)))
        + countSub A (sourcesFrag bId) :=
    countSub_insert hA h4 (noSplit_elim hs4).1 (noSplit_elim hs4).2 hnl
      ⟨'\t' :: '\t' :: '\t' :: '\t' :: (bId ++ sourcesTail), rfl⟩ hx4
  have hp : patch fId bId c = step4 bId (step3 fId (step2 bId fId (step1 fId c))) := rfl
  rw [hp, e4, e3, e2, e1]

/-! ## Claim C1 -/

/-- Counterexample to C1 as stated: `cxDoc` contains all four anchor
substrings, yet one run grows the document by only three fragments, because
the first insertion lands inside the (overlapping) only occurrence of the
build-file marker and destroys it, so the second search fails.  The run is a
genuine one: the identifiers are distinct 24-character uppercase hex
strings. -/
theorem c1_counterexample :
    (containsSubB refMarker cxDoc = true ∧ containsSubB buildMarker cxDoc = true ∧
     containsSubB groupAnchor cxDoc = true ∧ containsSubB sourcesAnchor cxDoc = true) ∧
    (hexIdB idA = true ∧ hexIdB idB = true ∧ idA ≠ idB) ∧
    (patch idA idB cxDoc).length
      ≠ cxDoc.length + ((refFrag idA).length + (buildFrag idB idA).length
        + (groupFrag idA).length + (sourcesFrag idB).length) := by
  decide

/-- Claim C1 (amended): for a run with two distinct well-formed identifiers
on a document in which each of the four anchor searches succeeds (on the
successively modified document) and which does not already contain
ModernDesign entries, the output length is the input length plus exactly the
total length of the four inserted fragments, each identifier occurs exactly
once in each of its expected locations (the file-reference declaration, the
build-file declaration and the corresponding list item), and each of the
four locations occurs exactly once in the output. -/
theorem c1_theorem (fId bId c : List Char) (i1 i2 i3 i4 : Nat)
    (hfx : hexIdB fId = true) (hbx : hexIdB bId = true) (hne : fId ≠ bId)
    (h1 : findSub refMarker c = some i1)
    (h2 : findSub buildMarker (step1 fId c) = some i2)
    (h3 : findSub groupAnchor (step2 bId fId (step1 fId c)) = some i3)
    (h4 : findSub sourcesAnchor (step3 fId (step2 bId fId (step1 fId c))) = some i4)
    (hz1 : countSub refTail c = 0) (hz2 : countSub buildTail1 c = 0)
    (hz3 : countSub groupTail c = 0) (hz4 : countSub sourcesTail c = 0) :
    (patch fId bId c).length
      = c.length + ((refFrag fId).length + (buildFrag bId fId).length
        + (groupFrag fId).length + (sourcesFrag bId).length) ∧
    countSub fId (fileRefLine fId) = 1 ∧
    countSub fId (buildFileLine bId fId) = 1 ∧
    countSub fId (groupFrag fId) = 1 ∧
    countSub bId (buildFileLine bId fId) = 1 ∧
    countSub bId (sourcesFrag bId) = 1 ∧
    countSub refTail (patch fId bId c) = 1 ∧
    countSub buildTail1 (patch fId bId c) = 1 ∧
    countSub groupTail (patch fId bId c) = 1 ∧
    countSub sourcesTail (patch fId bId c) = 1 := by
  have hcx1 : ∀ l, 0 < l → l < refTail.length →
      ¬ Suff (refTail.take l) (refFrag fId) := by
    rw [refFrag_decomp]
    exact nocross_frag_simple nl3 hfx (by decide) (by decide) (by decide)
  have hcx2 : ∀ l, 0 < l → l < refTail.length →
      ¬ Suff (refTail.take l) (buildFrag bId fId) := by
    rw [buildFrag_decomp2]
    exact nocross_frag_simple (nl3 ++ (bId ++ buildTail1)) hfx
      (by decide) (by decide) (by decide)
  have hcx3 : ∀ l, 0 < l → l < refTail.length →
      ¬ Suff (refTail.take l) (groupFrag fId) := by
    rw [groupFrag_decomp]
    exact nocross_frag_simple nl5 hfx (by decide) (by decide) (by decide)
  have hcx4 : ∀ l, 0 < l → l < refTail.length →
      ¬ Suff (refTail.take l) (sourcesFrag bId) := by
    rw [sourcesFrag_decomp]
    exact nocross_frag_simple nl5 hbx (by decide) (by decide) (by decide)
  have hbx1 : ∀ l, 0 < l → l < buildTail1.length →
      ¬ Suff (buildTail1.take l) (refFrag fId) := by
    rw [refFrag_decomp]
    exact nocross_frag_simple nl3 hfx (by decide) (by decide) (by decide)
  have hbx2 : ∀ l, 0 < l → l < buildTail1.length →
      ¬ Suff (buildTail1.take l) (buildFrag bId fId) := by
    rw [buildFrag_decomp2]
    exact nocross_frag_simple (nl3 ++ (bId ++ buildTail1)) hfx
      (by decide) (by decide) (by decide)
  have hbx3 : ∀ l, 0 < l → l < buildTail1.length →
      ¬ Suff (buildTail1.take l) (groupFrag fId) := by
    rw [groupFrag_decomp]
    exact nocross_frag_simple nl5 hfx (by decide) (by decide) (by decide)
  have hbx4 : ∀ l, 0 < l → l < buildTail1.length →
      ¬ Suff (buildTail1.take l) (sourcesFrag bId) := by
    rw [sourcesFrag_decomp]
    exact nocross_frag_simple nl5 hbx (by decide) (by decide) (by decide)
  have hgx1 : ∀ l, 0 < l → l < groupTail.length →
      ¬ Suff (groupTail.take l) (refFrag fId) := by
    rw [refFrag_decomp]
    exact nocross_frag_simple nl3 hfx (by decide) (by decide) (by decide)
  have hgx2 : ∀ l, 0 < l → l < groupTail.length →
      ¬ Suff (groupTail.take l) (buildFrag bId fId) := by
    rw [buildFrag_decomp2]
    exact nocross_frag_simple (nl3 ++ (bId ++ buildTail1)) hfx
      (by decide) (by decide) (by decide)
  have hgx3 : ∀ l, 0 < l → l < groupTail.length →
      ¬ Suff (groupTail.take l) (groupFrag fId) := by
    rw [groupFrag_decomp]
    exact nocross_frag_simple nl5 hfx (by decide) (by decide) (by decide)
  have hgx4 : ∀ l, 0 < l → l < groupTail.length →
      ¬ Suff (groupTail.take l) (sourcesFrag bId) := by
    rw [sourcesFrag_decomp]
    exact nocross_frag_simple nl5 hbx (by decide) (by decide) (by decide)
  have hsx1 : ∀ l, 0 < l → l < sourcesTail.length →
      ¬ Suff (sourcesTail.take l) (refFrag fId) := by
    rw [refFrag_decomp]
    exact nocross_frag_simple nl3 hfx (by decide) (by decide) (by decide)
  have hsx2 : ∀ l, 0 < l → l < sourcesTail.length →
      ¬ Suff (sourcesTail.take l) (buildFrag bId fId) := by
    rw [buildFrag_decomp2]
    exact nocross_frag_simple (nl3 ++ (bId ++ buildTail1)) hfx
      (by decide) (by decide) (by decide)
  have hsx3 : ∀ l, 0 < l → l < sourcesTail.length →
      ¬ Suff (sourcesTail.take l) (groupFrag fId) := by
    rw [groupFrag_decomp]
    exact nocross_frag_simple nl5 hfx (by decide) (by decide) (by decide)
  have hsx4 : ∀ l, 0 < l → l < sourcesTail.length →
      ¬ Suff (sourcesTail.take l) (sourcesFrag bId) := by
    rw [sourcesFrag_decomp]
    exact nocross_frag_simple nl5 hbx (by decide) (by decide) (by decide)
  refine ⟨?_, count_fId_fileRefLine hfx, count_fId_buildFileLine hfx hbx hne,
    count_fId_groupFrag hfx, count_bId_buildFileLine hfx hbx hne,
    count_bId_sourcesFrag hbx, ?_, ?_, ?_, ?_⟩
  · have hL1 : (step1 fId c).length = c.length + (refFrag fId).length :=
      insertAfterFirst_length_of_some (by decide) h1
    have hL2 : (step2 bId fId (step1 fId c)).length
        = (step1 fId c).length + (buildFrag bId fId).length :=
      insertAfterFirst_length_of_some (by decide) h2
    have hL3 : (step3 fId (step2 bId fId (step1 fId c))).length
        = (step2 bId fId (step1 fId c)).length + (groupFrag fId).length :=
      insertAfterFirst_length_of_some (by decide) h3
    have hL4 : (step4 bId (step3 fId (step2 bId fId (step1 fId c)))).length
        = (step3 fId (step2 bId fId (step1 fId c))).length
          + (sourcesFrag bId).length :=
      insertAfterFirst_length_of_some (by decide) h4
    have hp : patch fId bId c
        = step4 bId (step3 fId (step2 bId fId (step1 fId c))) := rfl
    rw [hp, hL4, hL3, hL2, hL1]
    omega
  · rw [countSub_patch_add refTail fId bId c i1 i2 i3 i4 (by decide) (by decide)
      h1 h2 h3 h4 (by decide) (by decide) (by decide) (by decide)
      hcx1 hcx2 hcx3 hcx4,
      hz1, count_refTail_refFrag hfx, count_refTail_buildFrag hfx hbx,
      count_refTail_groupFrag hfx, count_refTail_sourcesFrag hbx]
  · rw [countSub_patch_add buildTail1 fId bId c i1 i2 i3 i4 (by decide) (by decide)
      h1 h2 h3 h4 (by decide) (by decide) (by decide) (by decide)
      hbx1 hbx2 hbx3 hbx4,
      hz2, count_bt1_refFrag hfx, count_bt1_buildFrag hfx hbx,
      count_bt1_groupFrag hfx, count_bt1_sourcesFrag hbx]
  · rw [countSub_patch_add groupTail fId bId c i1 i2 i3 i4 (by decide) (by decide)
      h1 h2 h3 h4 (by decide) (by decide) (by decide) (by decide)
      hgx1 hgx2 hgx3 hgx4,
      hz3, count_gt_refFrag hfx, count_gt_buildFrag hfx hbx,
      count_gt_groupFrag hfx, count_gt_sourcesFrag hbx]
  · rw [countSub_patch_add sourcesTail fId bId c i1 i2 i3 i4 (by decide) (by decide)
      h1 h2 h3 h4 (by decide) (by decide) (by decide) (by decide)
      hsx1 hsx2 hsx3 hsx4,
      hz4, count_st_refFrag hfx, count_st_buildFrag hfx hbx,
      count_st_groupFrag hfx, count_st_sourcesFrag hbx]

/-- Witness for the amended C1 on a concrete well-formed document: the
patched length is the input length plus the four fragment lengths. -/
theorem c1_witness :
    (patch idA idB wDoc).length
      = wDoc.length + ((refFrag idA).length + (buildFrag idB idA).length
        + (groupFrag idA).length + (sourcesFrag idB).length) :=
  (c1_theorem idA idB wDoc 0 208 391 478 (by decide) (by decide) (by decide)
    (by decide) (by decide) (by decide) (by decide) (by decide) (by decide)
    (by decide) (by decide)).1

/-! ## Facts about the symbolic declaration line, for Claim C2 -/

theorem newline_notin_fileRefLine {fId : List Char} (hf : hexIdB fId = true) :
    '\n' ∉ fileRefLine fId := by
  rw [fileRefLine_decomp]
  intro hm
  rcases List.mem_append.mp hm with h | h
  · exact absurd h (by decide)
  · rcases List.mem_append.mp h with h2 | h2
    · exact not_hex_notin (hexId_mem hf) (by decide) h2
    · exact absurd h2 (by decide)

theorem char_notin_fileRefLine {fId : List Char} {c : Char} (hf : hexIdB fId = true)
    (hhex : isHexUpper c = false) (htab : c ∉ tab2) (href : c ∉ refTail) :
    c ∉ fileRefLine fId := by
  rw [fileRefLine_decomp]
  intro hm
  rcases List.mem_append.mp hm with h | h
  · exact htab h
  · rcases List.mem_append.mp h with h2 | h2
    · exact not_hex_notin (hexId_mem hf) hhex h2
    · exact href h2

theorem fileRefLine_length {fId : List Char} (hf : hexIdB fId = true) :
    (fileRefLine fId).length = 170 := by
  have h144 : refTail.length = 144 := by decide
  rw [fileRefLine_decomp, List.length_append, List.length_append,
    hexId_length hf, h144]
  decide

theorem buildFrag_length {fId bId : List Char} (hf : hexIdB fId = true)
    (hb : hexIdB bId = true) : (buildFrag bId fId).length = 150 := by
  have h70 : buildTail1.length = 70 := by decide
  have h29 : buildTail2.length = 29 := by decide
  rw [buildFrag_decomp, List.length_append, List.length_append,
    List.length_append, List.length_append, hexId_length hf, hexId_length hb,
    h70, h29]
  decide

theorem groupFrag_length {fId : List Char} (hf : hexIdB fId = true) :
    (groupFrag fId).length = 55 := by
  have h26 : groupTail.length = 26 := by decide
  rw [groupFrag_decomp, List.length_append, List.length_append,
    hexId_length hf, h26]
  decide

theorem sourcesFrag_length {bId : List Char} (hb : hexIdB bId = true) :
    (sourcesFrag bId).length = 66 := by
  have h37 : sourcesTail.length = 37 := by decide
  rw [sourcesFrag_decomp, List.length_append, List.length_append,
    hexId_length hb, h37]
  decide

theorem nocross_frl_group {fId gId : List Char} (hf : hexIdB fId = true) :
    ∀ l, 0 < l → l < (fileRefLine fId).length →
      ¬ Suff ((fileRefLine fId).take l) (groupFrag gId) := by
  apply noCross_of_last_notin
  intro ch hch
  have hgt : groupTail ≠ [] := by decide
  have hga : gId ++ groupTail ≠ [] := fun hn => hgt (List.append_eq_nil.mp hn).2
  have hlast : (groupFrag gId).getLast? = some ',' := by
    rw [groupFrag_decomp, List.getLast?_append_of_ne_nil _ hga,
      List.getLast?_append_of_ne_nil _ hgt]
    decide
  rw [hlast] at hch
  injection hch with hc
  subst hc
  exact char_notin_fileRefLine hf (by decide) (by decide) (by decide)

theorem nocross_frl_sources {fId gId : List Char} (hf : hexIdB fId = true) :
    ∀ l, 0 < l → l < (fileRefLine fId).length →
      ¬ Suff ((fileRefLine fId).take l) (sourcesFrag gId) := by
  apply noCross_of_last_notin
  intro ch hch
  have hgt : sourcesTail ≠ [] := by decide
  have hga : gId ++ sourcesTail ≠ [] := fun hn => hgt (List.append_eq_nil.mp hn).2
  have hlast : (sourcesFrag gId).getLast? = some ',' := by
    rw [sourcesFrag_decomp, List.getLast?_append_of_ne_nil _ hga,
      List.getLast?_append_of_ne_nil _ hgt]
    decide
  rw [hlast] at hch
  injection hch with hc
  subst hc
  exact char_notin_fileRefLine hf (by decide) (by decide) (by decide)

/-- Front part of `buildTail2`, before the closing brace and semicolon. -/
def buildTail2F : List Char := " /* ModernDesign.swift */; ".toList

theorem buildTail2_split : buildTail2 = buildTail2F ++ ['\x7d', ';'] := by decide

theorem buildFrag_last2 (bId fId : List Char) :
    buildFrag bId fId
      = (nl3 ++ (bId ++ (buildTail1 ++ (fId ++ buildTail2F)))) ++ ['\x7d', ';'] := by
  rw [buildFrag_decomp, buildTail2_split]
  simp [List.append_assoc]

theorem frl_take168 {fId : List Char} (hf : hexIdB fId = true) :
    (fileRefLine fId).take 168 = tab2 ++ (fId ++ refTail.take 142) := by
  rw [fileRefLine_decomp, List.take_append_eq_append_take,
    List.take_of_length_le (by decide : tab2.length ≤ 168),
    show (168 : Nat) - tab2.length = 166 from by decide,
    List.take_append_eq_append_take,
    List.take_of_length_le (by rw [hexId_length hf]; omega),
    hexId_length hf]

theorem nocross_frl_build {fId bId fId2 : List Char} (hf : hexIdB fId = true) :
    ∀ l, 0 < l → l < (fileRefLine fId).length →
      ¬ Suff ((fileRefLine fId).take l) (buildFrag bId fId2) := by
  apply noCross_of_last2 (buildFrag_last2 bId fId2)
  · rw [show (fileRefLine fId).head? = some '\t' from rfl]
    decide
  · rw [fileRefLine_length hf,
      show (170 : Nat) - 2 = 168 from by decide, frl_take168 hf]
    intro hm
    rcases List.mem_append.mp hm with h | h
    · exact absurd h (by decide)
    · rcases List.mem_append.mp h with h2 | h2
      · exact not_hex_notin (hexId_mem hf) (by decide) h2
      · exact absurd h2 (by decide)

/-! ## Claim C2 -/

/-- Counterexample to C2 as stated: a document that does not contain the
references-section marker but happens to contain the would-be reference
declaration verbatim; the output still contains the declaration. -/
theorem c2_counterexample :
    containsSubB refMarker (fileRefLine idA) = false ∧
    containsSubB (fileRefLine idA) (patch idA idB (fileRefLine idA)) = true := by
  decide

/-- Claim C2 (amended): for a run on a document that contains neither the
references-section marker nor (already) the reference declaration, the first
insertion is skipped, the output never contains the reference declaration,
and each of the other three insertions is still performed — as a splice
immediately after its anchor — whenever its own anchor substring is present
in the document. -/
theorem c2_theorem (fId bId c : List Char) (hfx : hexIdB fId = true)
    (hbx : hexIdB bId = true)
    (h0 : containsSubB refMarker c = false)
    (h1 : containsSubB (fileRefLine fId) c = false) :
    step1 fId c = c ∧
    ¬ IsSubstr (fileRefLine fId) (patch fId bId c) ∧
    (containsSubB buildMarker c = true →
      ∃ i, findSub buildMarker c = some i ∧
        step2 bId fId c = c.take (i + buildMarker.length)
          ++ (buildFrag bId fId ++ c.drop (i + buildMarker.length))) ∧
    (containsSubB groupAnchor c = true →
      ∃ i, findSub groupAnchor (step2 bId fId c) = some i ∧
        step3 fId (step2 bId fId c)
          = (step2 bId fId c).take (i + groupAnchor.length)
            ++ (groupFrag fId ++ (step2 bId fId c).drop (i + groupAnchor.length))) ∧
    (containsSubB sourcesAnchor c = true →
      ∃ i, findSub sourcesAnchor (step3 fId (step2 bId fId c)) = some i ∧
        step4 bId (step3 fId (step2 bId fId c))
          = (step3 fId (step2 bId fId c)).take (i + sourcesAnchor.length)
            ++ (sourcesFrag bId
              ++ (step3 fId (step2 bId fId c)).drop (i + sourcesAnchor.length))) := by
  have hnone : findSub refMarker c = none := by
    cases hfm : findSub refMarker c with
    | none => rfl
    | some i =>
      rw [containsSubB, hfm] at h0
      simp at h0
  have hstep1 : step1 fId c = c := insertAfterFirst_of_none hnone
  have hno : ¬ IsSubstr (fileRefLine fId) c := by
    intro h
    have hcb := substr_iff_containsB.mp h
    rw [h1] at hcb
    cases hcb
  have hnl := newline_notin_fileRefLine hfx
  have habs2 : ¬ IsSubstr (fileRefLine fId) (step2 bId fId c) := by
    apply substr_insert_absent hno hnl ⟨buildFileLine bId fId, rfl⟩
    · intro h
      have hl : (170 : Nat) ≤ (buildFrag bId fId).length := by
        have hl0 := substr_length h
        rw [fileRefLine_length hfx] at hl0
        exact hl0
      rw [buildFrag_length hfx hbx] at hl
      omega
    · exact nocross_frl_build hfx
  have habs3 : ¬ IsSubstr (fileRefLine fId) (step3 fId (step2 bId fId c)) := by
    apply substr_insert_absent habs2 hnl
      ⟨'\t' :: '\t' :: '\t' :: '\t' :: (fId ++ groupTail), rfl⟩
    · intro h
      have hl : (170 : Nat) ≤ (groupFrag fId).length := by
        have hl0 := substr_length h
        rw [fileRefLine_length hfx] at hl0
        exact hl0
      rw [groupFrag_length hfx] at hl
      omega
    · exact nocross_frl_group hfx
  have habs4 : ¬ IsSubstr (fileRefLine fId)
      (step4 bId (step3 fId (step2 bId fId c))) := by
    apply substr_insert_absent habs3 hnl
      ⟨'\t' :: '\t' :: '\t' :: '\t' :: (bId ++ sourcesTail), rfl⟩
    · intro h
      have hl : (170 : Nat) ≤ (sourcesFrag bId).length := by
        have hl0 := substr_length h
        rw [fileRefLine_length hfx] at hl0
        exact hl0
      rw [sourcesFrag_length hbx] at hl
      omega
    · exact nocross_frl_sources hfx
  have hpatch : patch fId bId c = step4 bId (step3 fId (step2 bId fId c)) := by
    show step4 bId (step3 fId (step2 bId fId (step1 fId c))) = _
    rw [hstep1]
  refine ⟨hstep1, by rw [hpatch]; exact habs4, ?_, ?_, ?_⟩
  · intro hb
    rw [containsSubB] at hb
    cases hfm : findSub buildMarker c with
    | none =>
      rw [hfm] at hb
      cases hb
    | some i => exact ⟨i, rfl, insertAfterFirst_take_form hfm⟩
  · intro hg
    have hgc : IsSubstr groupAnchor c := substr_iff_containsB.mpr hg
    have hg2 : IsSubstr groupAnchor (step2 bId fId c) :=
      substr_insert_preserved hgc
        (noSplit_elim (by decide : noSplitB groupAnchor buildMarker = true)).1
        (noSplit_elim (by decide : noSplitB groupAnchor buildMarker = true)).2
    have hg2s := findSub_isSome_iff.mpr hg2
    obtain ⟨i, hi⟩ := Option.isSome_iff_exists.mp hg2s
    exact ⟨i, hi, insertAfterFirst_take_form hi⟩
  · intro hs
    have hsc : IsSubstr sourcesAnchor c := substr_iff_containsB.mpr hs
    have hs2 : IsSubstr sourcesAnchor (step2 bId fId c) :=
      substr_insert_preserved hsc
        (noSplit_elim (by decide : noSplitB sourcesAnchor buildMarker = true)).1
        (noSplit_elim (by decide : noSplitB sourcesAnchor buildMarker = true)).2
    have hs3 : IsSubstr sourcesAnchor (step3 fId (step2 bId fId c)) :=
      substr_insert_preserved hs2
        (noSplit_elim (by decide : noSplitB sourcesAnchor groupAnchor = true)).1
        (noSplit_elim (by decide : noSplitB sourcesAnchor groupAnchor = true)).2
    have hs3s := findSub_isSome_iff.mpr hs3
    obtain ⟨i, hi⟩ := Option.isSome_iff_exists.mp hs3s
    exact ⟨i, hi, insertAfterFirst_take_form hi⟩

/-- Witness for the amended C2 on a concrete document with the three other
anchors but no references-section marker: the first insertion is skipped. -/
theorem c2_witness :
    step1 idA noDoc = noDoc ∧
    ∃ i, findSub buildMarker noDoc = some i ∧
      step2 idB idA noDoc = noDoc.take (i + buildMarker.length)
        ++ (buildFrag idB idA ++ noDoc.drop (i + buildMarker.length)) :=
  ⟨(c2_theorem idA idB noDoc (by decide) (by decide) (by decide) (by decide)).1,
   (c2_theorem idA idB noDoc (by decide) (by decide) (by decide) (by decide)).2.2.1
     (by decide)⟩

/-! ## Claim C4 -/

/-- The effect of one whole run on the reference-declaration count. -/
theorem countSub_patch_refTail (fId bId c : List Char) (i1 i2 i3 i4 : Nat)
    (hf : hexIdB fId = true) (hb : hexIdB bId = true)
    (h1 : findSub refMarker c = some i1)
    (h2 : findSub buildMarker (step1 fId c) = some i2)
    (h3 : findSub groupAnchor (step2 bId fId (step1 fId c)) = some i3)
    (h4 : findSub sourcesAnchor (step3 fId (step2 bId fId (step1 fId c))) = some i4) :
    countSub refTail (patch fId bId c) = countSub refTail c + 1 := by
  rw [countSub_patch_add refTail fId bId c i1 i2 i3 i4 (by decide) (by decide)
    h1 h2 h3 h4 (by decide) (by decide) (by decide) (by decide)
    (by rw [refFrag_decomp]
        exact nocross_frag_simple nl3 hf (by decide) (by decide) (by decide))
    (by rw [buildFrag_decomp2]
        exact nocross_frag_simple (nl3 ++ (bId ++ buildTail1)) hf
          (by decide) (by decide) (by decide))
    (by rw [groupFrag_decomp]
        exact nocross_frag_simple nl5 hf (by decide) (by decide) (by decide))
    (by rw [sourcesFrag_decomp]
        exact nocross_frag_simple nl5 hb (by decide) (by decide) (by decide)),
    count_refTail_refFrag hf, count_refTail_buildFrag hf hb,
    count_refTail_groupFrag hf, count_refTail_sourcesFrag hb]

/-- The effect of one whole run on the build-declaration count. -/
theorem countSub_patch_bt1 (fId bId c : List Char) (i1 i2 i3 i4 : Nat)
    (hf : hexIdB fId = true) (hb : hexIdB bId = true)
    (h1 : findSub refMarker c = some i1)
    (h2 : findSub buildMarker (step1 fId c) = some i2)
    (h3 : findSub groupAnchor (step2 bId fId (step1 fId c)) = some i3)
    (h4 : findSub sourcesAnchor (step3 fId (step2 bId fId (step1 fId c))) = some i4) :
    countSub buildTail1 (patch fId bId c) = countSub buildTail1 c + 1 := by
  rw [countSub_patch_add buildTail1 fId bId c i1 i2 i3 i4 (by decide) (by decide)
    h1 h2 h3 h4 (by decide) (by decide) (by decide) (by decide)
    (by rw [refFrag_decomp]
        exact nocross_frag_simple nl3 hf (by decide) (by decide) (by decide))
    (by rw [buildFrag_decomp2]
        exact nocross_frag_simple (nl3 ++ (bId ++ buildTail1)) hf
          (by decide) (by decide) (by decide))
    (by rw [groupFrag_decomp]
        exact nocross_frag_simple nl5 hf (by decide) (by decide) (by decide))
    (by rw [sourcesFrag_decomp]
        exact nocross_frag_simple nl5 hb (by decide) (by decide) (by decide)),
    count_bt1_refFrag hf, count_bt1_buildFrag hf hb,
    count_bt1_groupFrag hf, count_bt1_sourcesFrag hb]

/-- The effect of one whole run on the group-list-entry count. -/
theorem countSub_patch_gt (fId bId c : List Char) (i1 i2 i3 i4 : Nat)
    (hf : hexIdB fId = true) (hb : hexIdB bId = true)
    (h1 : findSub refMarker c = some i1)
    (h2 : findSub buildMarker (step1 fId c) = some i2)
    (h3 : findSub groupAnchor (step2 bId fId (step1 fId c)) = some i3)
    (h4 : findSub sourcesAnchor (step3 fId (step2 bId fId (step1 fId c))) = some i4) :
    countSub groupTail (patch fId bId c) = countSub groupTail c + 1 := by
  rw [countSub_patch_add groupTail fId bId c i1 i2 i3 i4 (by decide) (by decide)
    h1 h2 h3 h4 (by decide) (by decide) (by decide) (by decide)
    (by rw [refFrag_decomp]
        exact nocross_frag_simple nl3 hf (by decide) (by decide) (by decide))
    (by rw [buildFrag_decomp2]
        exact nocross_frag_simple (nl3 ++ (bId ++ buildTail1)) hf
          (by decide) (by decide) (by decide))
    (by rw [groupFrag_decomp]
        exact nocross_frag_simple nl5 hf (by decide) (by decide) (by decide))
    (by rw [sourcesFrag_decomp]
        exact nocross_frag_simple nl5 hb (by decide) (by decide) (by decide)),
    count_gt_refFrag hf, count_gt_buildFrag hf hb,
    count_gt_groupFrag hf, count_gt_sourcesFrag hb]

/-- The effect of one whole run on the build-phase-list-entry count. -/
theorem countSub_patch_st (fId bId c : List Char) (i1 i2 i3 i4 : Nat)
    (hf : hexIdB fId = true) (hb : hexIdB bId = true)
    (h1 : findSub refMarker c = some i1)
    (h2 : findSub buildMarker (step1 fId c) = some i2)
    (h3 : findSub groupAnchor (step2 bId fId (step1 fId c)) = some i3)
    (h4 : findSub sourcesAnchor (step3 fId (step2 bId fId (step1 fId c))) = some i4) :
    countSub sourcesTail (patch fId bId c) = countSub sourcesTail c + 1 := by
  rw [countSub_patch_add sourcesTail fId bId c i1 i2 i3 i4 (by decide) (by decide)
    h1 h2 h3 h4 (by decide) (by decide) (by decide) (by decide)
    (by rw [refFrag_decomp]
        exact nocross_frag_simple nl3 hf (by decide) (by decide) (by decide))
    (by rw [buildFrag_decomp2]
        exact nocross_frag_simple (nl3 ++ (bId ++ buildTail1)) hf
          (by decide) (by decide) (by decide))
    (by rw [groupFrag_decomp]
        exact nocross_frag_simple nl5 hf (by decide) (by decide) (by decide))
    (by rw [sourcesFrag_decomp]
        exact nocross_frag_simple nl5 hb (by decide) (by decide) (by decide)),
    count_st_refFrag hf, count_st_buildFrag hf hb,
    count_st_groupFrag hf, count_st_sourcesFrag hb]

/-- Counterexample to C4 as stated: `cxDoc` contains all four anchors, yet
after two runs (with fresh identifiers for the second) the document contains
no build declaration at all — not two — because the first run's first
insertion destroys the overlapping build-file marker. -/
theorem c4_counterexample :
    (containsSubB refMarker cxDoc = true ∧ containsSubB buildMarker cxDoc = true ∧
     containsSubB groupAnchor cxDoc = true ∧ containsSubB sourcesAnchor cxDoc = true) ∧
    countSub buildTail1 (patch idC idD (patch idA idB cxDoc)) = 0 := by
  decide

/-- Claim C4 (amended): the patch is not idempotent: for two runs with
well-formed identifiers on a document that starts with no ModernDesign
entries, when each of the eight anchor searches succeeds (four per run, on
the successively modified documents), the final document contains exactly two
reference declarations, two build declarations, and two ModernDesign entries
in each of the two lists — no existence check prevents the duplicates. -/
theorem c4_theorem (f1 b1 f2 b2 c : List Char)
    (i1 i2 i3 i4 j1 j2 j3 j4 : Nat)
    (hf1 : hexIdB f1 = true) (hb1 : hexIdB b1 = true)
    (hf2 : hexIdB f2 = true) (hb2 : hexIdB b2 = true)
    (h1 : findSub refMarker c = some i1)
    (h2 : findSub buildMarker (step1 f1 c) = some i2)
    (h3 : findSub groupAnchor (step2 b1 f1 (step1 f1 c)) = some i3)
    (h4 : findSub sourcesAnchor (step3 f1 (step2 b1 f1 (step1 f1 c))) = some i4)
    (h5 : findSub refMarker (patch f1 b1 c) = some j1)
    (h6 : findSub buildMarker (step1 f2 (patch f1 b1 c)) = some j2)
    (h7 : findSub groupAnchor (step2 b2 f2 (step1 f2 (patch f1 b1 c))) = some j3)
    (h8 : findSub sourcesAnchor
      (step3 f2 (step2 b2 f2 (step1 f2 (patch f1 b1 c)))) = some j4)
    (hz1 : countSub refTail c = 0) (hz2 : countSub buildTail1 c = 0)
    (hz3 : countSub groupTail c = 0) (hz4 : countSub sourcesTail c = 0) :
    countSub refTail (patch f2 b2 (patch f1 b1 c)) = 2 ∧
    countSub buildTail1 (patch f2 b2 (patch f1 b1 c)) = 2 ∧
    countSub groupTail (patch f2 b2 (patch f1 b1 c)) = 2 ∧
    countSub sourcesTail (patch f2 b2 (patch f1 b1 c)) = 2 := by
  have r1 := countSub_patch_refTail f1 b1 c i1 i2 i3 i4 hf1 hb1 h1 h2 h3 h4
  have r2 := countSub_patch_refTail f2 b2 (patch f1 b1 c) j1 j2 j3 j4 hf2 hb2 h5 h6 h7 h8
  have t1 := countSub_patch_bt1 f1 b1 c i1 i2 i3 i4 hf1 hb1 h1 h2 h3 h4
  have t2 := countSub_patch_bt1 f2 b2 (patch f1 b1 c) j1 j2 j3 j4 hf2 hb2 h5 h6 h7 h8
  have g1 := countSub_patch_gt f1 b1 c i1 i2 i3 i4 hf1 hb1 h1 h2 h3 h4
  have g2 := countSub_patch_gt f2 b2 (patch f1 b1 c) j1 j2 j3 j4 hf2 hb2 h5 h6 h7 h8
  have s1 := countSub_patch_st f1 b1 c i1 i2 i3 i4 hf1 hb1 h1 h2 h3 h4
  have s2 := countSub_patch_st f2 b2 (patch f1 b1 c) j1 j2 j3 j4 hf2 hb2 h5 h6 h7 h8
  refine ⟨?_, ?_, ?_, ?_⟩ <;> omega

/-- Witness for the amended C4 on a concrete well-formed document: after two
runs the reference declaration occurs exactly twice. -/
theorem c4_witness :
    countSub refTail (patch idC idD (patch idA idB wDoc)) = 2 :=
  (c4_theorem idA idB idC idD wDoc 0 208 391 478 0 379 712 854
    (by decide) (by decide) (by decide) (by decide)
    (by decide) (by decide) (by decide) (by decide)
    (by decide) (by decide) (by decide) (by decide)
    (by decide) (by decide) (by decide) (by decide)).1


end HKA
